import Mathlib

/-!
Verification of the command-protocol layer of the digital-twin MCP server
(`mcp_server.py`, `mcp_adapter.py`, `parse_natural_language.py`,
`dify_processor.py`).

The embedding is shallow: Python dicts become insertion-ordered association
lists with insert-or-replace, WebSocket handles become numeric ids whose
send outcome is supplied by an environment function, Python floats become
rationals, and the coroutine operations become pure state-passing functions.
Each definition mirrors the corresponding Python function; line references
are given in the doc comments.
-/

namespace DTB

/-! ## Python dict model

A Python `dict` with string keys is modelled as an insertion-ordered
association list.  `dlookup` is `d.get(k)`, `dinsert` is `d[k] = v`
(replace in place if the key exists, append otherwise), `derase` is
`del d[k]` (plus the membership guard used at every `del` site). -/

/-- Lookup in an association list; models Python `d.get(k)`. -/
def dlookup {α : Type} (k : String) : List (String × α) → Option α
  | [] => none
  | (k', v) :: rest => if k' = k then some v else dlookup k rest

/-- Insert-or-replace; models Python `d[k] = v` (insertion order kept). -/
def dinsert {α : Type} (k : String) (v : α) : List (String × α) → List (String × α)
  | [] => [(k, v)]
  | (k', v') :: rest => if k' = k then (k, v) :: rest else (k', v') :: dinsert k v rest

/-- Guarded delete; models `if k in d: del d[k]`. -/
def derase {α : Type} (k : String) : List (String × α) → List (String × α)
  | [] => []
  | (k', v') :: rest => if k' = k then derase k rest else (k', v') :: derase k rest

/-- Keys of the association list, in order. -/
def dkeys {α : Type} (m : List (String × α)) : List String := m.map Prod.fst

/-- Python `dict.update`: fold the right dict into the left one. -/
def dupdate {α : Type} (acc mp : List (String × α)) : List (String × α) :=
  mp.foldl (fun a p => dinsert p.1 p.2 a) acc

/-! ## Session parsing used by the connection registry

`ConnectionManager.connect` (mcp_server.py:228) recovers the session token of
an already-registered connection from its client-id string:
`existing_id.split('_')[1] if '_' in existing_id else ""`. -/

/-- Python `str.split(sep)` on a list of characters (empty parts kept). -/
def pySplit (sep : Char) : List Char → List (List Char)
  | [] => [[]]
  | c :: cs =>
    match pySplit sep cs with
    | [] => [[]]
    | h :: t => if c = sep then [] :: h :: t else (c :: h) :: t

/-- The session token the dedup check at mcp_server.py:228 attributes to a
client id: `cid.split('_')[1] if '_' in cid else ""`. -/
def parsedSession (cid : String) : String :=
  if '_' ∈ cid.data then
    match (pySplit '_' cid.data).drop 1 with
    | s :: _ => ⟨s⟩
    | [] => ""
  else ""

/-! ## Connection registry (`ConnectionManager`, mcp_server.py:152-413)

`active_connections` maps client id to the record stored at line 246;
`endpoint_connections` maps each channel to its `client_id → websocket`
dict.  WebSockets are numeric handles; whether a `send_json` to a handle
raises is supplied by a `fails` environment function at each call site. -/

/-- The per-connection record stored in `active_connections`
(mcp_server.py:246-252); timestamps are dropped as informational. -/
structure ConnInfo where
  websocket : Nat
  endpointType : String
  sessionId : String
deriving DecidableEq, Repr

/-- The two indices of `ConnectionManager` (mcp_server.py:155-164). -/
structure ConnectionManager where
  active_connections : List (String × ConnInfo)
  endpoint_connections : List (String × List (String × Nat))
deriving DecidableEq, Repr

/-- The freshly constructed manager (mcp_server.py:155-164). -/
def ConnectionManager.init : ConnectionManager :=
  { active_connections := [],
    endpoint_connections := [("status", []), ("health", []), ("command", []), ("general", [])] }

/-- Remove `cid` from the channel map of `ep`, guarded exactly as the Python
`if endpoint_type in self.endpoint_connections: if client_id in ...: del`. -/
def epErase (ep cid : String) (m : List (String × List (String × Nat))) :
    List (String × List (String × Nat)) :=
  match dlookup ep m with
  | some inner => dinsert ep (derase cid inner) m
  | none => m

/-- Register `cid ↦ ws` under channel `ep`, creating the channel key first if
missing (mcp_server.py:255-257). -/
def epInsert (ep cid : String) (ws : Nat) (m : List (String × List (String × Nat))) :
    List (String × List (String × Nat)) :=
  match dlookup ep m with
  | some inner => dinsert ep (dinsert cid ws inner) m
  | none => m ++ [(ep, [(cid, ws)])]

/-- The websocket-search branch of `disconnect` (mcp_server.py:278-292):
collect every client whose record holds this websocket, delete each from its
channel map, then delete all of them from the global map.  A `none` websocket
(as passed by `send_to_client`'s failure path) matches no record. -/
def ConnectionManager.disconnectByWs (m : ConnectionManager) (w : Option Nat) :
    ConnectionManager :=
  match w with
  | none => m
  | some ws =>
    let toRemove := m.active_connections.filter (fun p => p.2.websocket == ws)
    { active_connections := m.active_connections.filter (fun p => p.2.websocket != ws),
      endpoint_connections :=
        toRemove.foldl (fun acc p => epErase p.2.endpointType p.1 acc) m.endpoint_connections }

/-- `ConnectionManager.disconnect` (mcp_server.py:263-292).  If a non-falsy
client id is given and registered, remove it from its channel map and the
global map; otherwise fall back to the websocket search. -/
def ConnectionManager.disconnect (m : ConnectionManager) (w : Option Nat)
    (client_id : Option String) : ConnectionManager :=
  match client_id with
  | some cid =>
    if cid = "" then m.disconnectByWs w
    else
      match dlookup cid m.active_connections with
      | some info =>
        { active_connections := derase cid m.active_connections,
          endpoint_connections := epErase info.endpointType cid m.endpoint_connections }
      | none => m.disconnectByWs w
  | none => m.disconnectByWs w

/-- The client id a connect call will register (mcp_server.py:220-222):
the explicit id when truthy, else `{host}_{session_id}`. -/
def effectiveClientId (client_id? : Option String) (host session_id : String) : String :=
  match client_id? with
  | some c => if c = "" then host ++ "_" ++ session_id else c
  | none => host ++ "_" ++ session_id

/-- `ConnectionManager.connect` (mcp_server.py:166-261), after session
derivation.  The session token is an input: the code derives it from the
first WebSocket message, a cookie, a user-agent hash, or randomness (lines
176-218), all of which are transport I/O outside the registry.  The returned
triple is (new state, final client id, client ids that were sent a close
notice and retired by the dedup loop at lines 224-243). -/
def ConnectionManager.connect (m : ConnectionManager) (ws : Nat) (endpoint_type : String)
    (client_id? : Option String) (host session_id : String) :
    ConnectionManager × String × List String :=
  let client_id := effectiveClientId client_id? host session_id
  let dup := m.active_connections.filter (fun p =>
    p.1 != client_id && p.2.endpointType == endpoint_type && parsedSession p.1 == session_id)
  let m1 := dup.foldl (fun acc p => acc.disconnect (some p.2.websocket) (some p.1)) m
  let info : ConnInfo := ⟨ws, endpoint_type, session_id⟩
  ({ active_connections := dinsert client_id info m1.active_connections,
     endpoint_connections := epInsert endpoint_type client_id ws m1.endpoint_connections },
   client_id, dup.map Prod.fst)

/-- Union of every channel map, built with `dict.update`
(mcp_server.py:307-310). -/
def allConns (m : ConnectionManager) : List (String × Nat) :=
  m.endpoint_connections.foldl (fun acc p => dupdate acc p.2) []

/-- Target selection of `broadcast` (mcp_server.py:302-310): a truthy
channel that is a key of `endpoint_connections` selects that channel's map;
otherwise every channel is targeted. -/
def broadcastTargets (m : ConnectionManager) (endpoint_type? : Option String) :
    List (String × Nat) :=
  match endpoint_type? with
  | some ch =>
    if ch ≠ "" then
      match dlookup ch m.endpoint_connections with
      | some mp => mp
      | none => allConns m
    else allConns m
  | none => allConns m

/-- One step of the lazy cleanup after a broadcast sweep
(mcp_server.py:331-336): remove a failed client from the channel map when a
truthy channel was targeted, and from the global map. -/
def pruneStep (endpoint_type? : Option String) (acc : ConnectionManager) (cid : String) :
    ConnectionManager :=
  { active_connections := derase cid acc.active_connections,
    endpoint_connections :=
      match endpoint_type? with
      | some ch => if ch ≠ "" then epErase ch cid acc.endpoint_connections
                   else acc.endpoint_connections
      | none => acc.endpoint_connections }

/-- `ConnectionManager.broadcast` (mcp_server.py:294-343).  Returns the new
state, the boolean the Python function returns (`success_count > 0`, or
`False` on the empty-target early return), and the client ids that received
the message.  `fails ws` tells whether `send_json` on handle `ws` raises. -/
def ConnectionManager.broadcast (m : ConnectionManager) (endpoint_type? : Option String)
    (exclude_client_id? : Option String) (fails : Nat → Bool) :
    ConnectionManager × Bool × List String :=
  let target_connections := broadcastTargets m endpoint_type?
  if target_connections.isEmpty then (m, false, [])
  else
    let eligible := target_connections.filter (fun p =>
      match exclude_client_id? with
      | some ex => !(ex != "" && p.1 == ex)
      | none => true)
    let delivered := eligible.filter (fun p => !fails p.2)
    let disconnected := (eligible.filter (fun p => fails p.2)).map Prod.fst
    let m1 := disconnected.foldl (pruneStep endpoint_type?) m
    (m1, decide (0 < delivered.length), delivered.map Prod.fst)

/-- `ConnectionManager.send_to_client` (mcp_server.py:345-360): unicast; on a
send failure the connection is removed via `disconnect(None, client_id)`. -/
def ConnectionManager.send_to_client (m : ConnectionManager) (client_id : String)
    (fails : Nat → Bool) : ConnectionManager × Bool :=
  match dlookup client_id m.active_connections with
  | none => (m, false)
  | some info =>
    if fails info.websocket then (m.disconnect none (some client_id), false)
    else (m, true)

/-- Live connections for a (session token, channel) pair, read off the stored
records of the global index. -/
def liveFor (m : ConnectionManager) (s ch : String) : List String :=
  (m.active_connections.filter (fun p => p.2.sessionId == s && p.2.endpointType == ch)).map
    Prod.fst

/-! ## JSON-ish parameter values

Handler parameters are JSON dictionaries; the loosely-typed values that the
claims exercise are modelled by `Val`.  Python floats are modelled exactly as
rationals (every literal the translators extract is a finite decimal). -/

/-- A loosely-typed parameter value. -/
inductive Val where
  | null
  | bool (b : Bool)
  | num (q : ℚ)
  | str (s : String)
  | dict (entries : List (String × Val))

/-- Python truthiness of an optional value (`if not x`), for absent keys and
the falsy values relevant here. -/
def pyTruthy : Option Val → Bool
  | none => false
  | some Val.null => false
  | some (Val.bool b) => b
  | some (Val.num q) => !(q == 0)
  | some (Val.str s) => !(s == "")
  | some (Val.dict d) => !d.isEmpty

/-- Decimal digit test (Python `\d` over the relevant inputs). -/
def isDigitC (c : Char) : Bool := '0' ≤ c && c ≤ '9'

/-- Numeric value of a digit run. -/
def digitsToNat (l : List Char) : Nat := l.foldl (fun a c => a * 10 + (c.toNat - 48)) 0

/-- Python `float(str)` on the token shapes the translators extract:
optional sign, digits, optional fraction.  `none` models the `ValueError`
raised on anything else (multiple dots, no digits). -/
def pyFloatStr (l : List Char) : Option ℚ :=
  let (neg, l') : Bool × List Char :=
    match l with
    | '-' :: rest => (true, rest)
    | '+' :: rest => (false, rest)
    | _ => (false, l)
  let signed : ℚ → ℚ := fun q => if neg then -q else q
  let intPart := l'.takeWhile isDigitC
  let rest := l'.dropWhile isDigitC
  match rest with
  | [] => if intPart.isEmpty then none else some (signed (digitsToNat intPart : ℚ))
  | '.' :: frac =>
    if frac.all isDigitC then
      if intPart.isEmpty && frac.isEmpty then none
      else some (signed ((digitsToNat intPart : ℚ) +
        (digitsToNat frac : ℚ) / ((10 : ℚ) ^ frac.length)))
    else none
  | _ => none

/-- Python `float(x)` on a `Val` (`float` of a bool is 0 or 1; of a dict,
null or non-numeric string it raises, modelled by `none`). -/
def pyFloat : Val → Option ℚ
  | Val.num q => some q
  | Val.bool b => some (if b then 1 else 0)
  | Val.str s => pyFloatStr s.data
  | Val.null => none
  | Val.dict _ => none

/-! ## Operation handlers (`MCPServer.execute_*_operation`)

The four motion handlers use two delivery paths: the direct browser script
capability and the WebSocket broadcast.  The spec treats the script snippets
as an opaque capability (`ScriptBehavior` is its observable outcome); the
broadcast path runs against the real `ConnectionManager` model.  Each
handler returns its result dict, the connection-manager state after its
broadcasts, and the trace of delivery attempts it made. -/

/-- Observable outcome of `browser.execute_script` on a motion script:
the call raises, returns a non-dict, or returns a dict whose `success`
field is as given. -/
inductive ScriptBehavior where
  | raises
  | nonDict
  | dict (success : Bool)
deriving DecidableEq, Repr

/-- A delivery attempt made by a handler: a direct script execution, or a
`ConnectionManager.broadcast` on the given channel. -/
inductive Effect where
  | script
  | bcast (channel : Option String)
deriving DecidableEq, Repr

/-- Environment of a handler call: the browser capability (`None` when the
script path is unavailable), whether `self.connection_manager` was set (it is
in `main`), the shared connection-manager state, and the transport send
outcomes. -/
structure OpEnv where
  browser : Option ScriptBehavior
  selfCM : Bool
  cm : ConnectionManager
  fails : Nat → Bool

/-- Threaded handler state: connection registry plus the effect trace. -/
structure OpState where
  cm : ConnectionManager
  effects : List Effect
deriving Repr

/-- Result dict of a handler (`success`, optional `message`, optional
`error`); the echoed `data` payloads are dropped as informational. -/
structure HandlerResult where
  success : Bool
  message : Option String := none
  error : Option String := none
deriving DecidableEq, Repr

/-- Run one `ConnectionManager.broadcast` and record it in the trace. -/
def doBroadcast (st : OpState) (fails : Nat → Bool) (ch : Option String) :
    OpState × Bool :=
  let r := st.cm.broadcast ch none fails
  ({ cm := r.1, effects := st.effects ++ [Effect.bcast ch] }, r.2.1)

/-- `MCPServer.broadcast_command` (mcp_server.py:636-665): broadcast on the
command channel, and on failure retry across all channels. -/
def broadcast_command (st : OpState) (fails : Nat → Bool) : OpState × Bool :=
  let r1 := doBroadcast st fails (some "command")
  if r1.2 then (r1.1, true)
  else doBroadcast r1.1 fails none

/-- Append a script-execution attempt to the trace. -/
def addScript (st : OpState) : OpState :=
  { st with effects := st.effects ++ [Effect.script] }

/-- The broadcast fallback shared by the failure paths of rotate and zoom
(mcp_server.py:851-878, 893-920, 1091-1116, 1130-1155): broadcast the
command; succeed either way, with the message distinguishing the two. -/
def motionFallback (env : OpEnv) (st : OpState) (okMsg failMsg : String) :
    HandlerResult × OpState :=
  let r := broadcast_command st env.fails
  if r.2 then ({ success := true, message := some okMsg }, r.1)
  else ({ success := true, message := some failMsg }, r.1)

/-- The direct-execution section shared by rotate and zoom
(mcp_server.py:826-920 and 1067-1155): run the script; a raised exception
(including the `AttributeError` from `self.browser` being `None`) falls to
the broadcast fallback; a failing result dict falls to the broadcast
fallback; a success or a non-dict result returns success. -/
def jsSection (env : OpEnv) (st : OpState) (okMsg bcMsg triedMsg otherMsg : String) :
    HandlerResult × OpState :=
  match env.browser with
  | none => motionFallback env st bcMsg triedMsg
  | some ScriptBehavior.raises => motionFallback env (addScript st) bcMsg triedMsg
  | some (ScriptBehavior.dict true) => ({ success := true, message := some okMsg }, addScript st)
  | some (ScriptBehavior.dict false) => motionFallback env (addScript st) bcMsg triedMsg
  | some ScriptBehavior.nonDict => ({ success := true, message := some otherMsg }, addScript st)

/-- `MCPServer.execute_rotate_operation` (mcp_server.py:672-930).  When the
browser is unavailable it first broadcasts on the command channel (returning
success on delivery when `self.connection_manager` is set, and falling
through otherwise), then enters the direct-execution section. -/
def execute_rotate_operation (env : OpEnv) (params : List (String × Val)) :
    HandlerResult × OpState :=
  let st0 : OpState := { cm := env.cm, effects := [] }
  match env.browser with
  | none =>
    if env.selfCM then
      let r := doBroadcast st0 env.fails (some "command")
      if r.2 then ({ success := true, message := some "已发送旋转命令" }, r.1)
      else jsSection env r.1 "旋转操作成功" "旋转命令已通过WebSocket广播" "已尝试执行旋转操作" "旋转操作执行成功"
    else
      let r := broadcast_command st0 env.fails
      jsSection env r.1 "旋转操作成功" "旋转命令已通过WebSocket广播" "已尝试执行旋转操作" "旋转操作执行成功"
  | some _ =>
    jsSection env st0 "旋转操作成功" "旋转命令已通过WebSocket广播" "已尝试执行旋转操作" "旋转操作执行成功"

/-- The scale extracted by `execute_zoom_operation` before validation
(mcp_server.py:935-944): `params.get("scale")`, unwrapping a nested
`{"scale": ...}` dict, then `float(...)`.  The outer `none` is the
missing-parameter case (`scale is None`); `some none` is a conversion that
raises (handled by the outer `except`, which returns success). -/
def zoomScale (params : List (String × Val)) : Option (Option ℚ) :=
  match dlookup "scale" params with
  | none => none
  | some Val.null => none
  | some v =>
    match v with
    | Val.dict d =>
      if (dlookup "scale" d).isSome then
        some (pyFloat ((dlookup "scale" d).getD Val.null))
      else some (pyFloat v)
    | _ => some (pyFloat v)

/-- `MCPServer.execute_zoom_operation` (mcp_server.py:932-1168).  Validation
(missing scale, non-positive scale) precedes every delivery attempt; a
conversion error reaches the outer `except`, which returns success with no
delivery attempted; otherwise the flow mirrors rotate. -/
def execute_zoom_operation (env : OpEnv) (params : List (String × Val)) :
    HandlerResult × OpState :=
  let st0 : OpState := { cm := env.cm, effects := [] }
  match zoomScale params with
  | none => ({ success := false, message := some "缺少缩放参数" }, st0)
  | some none => ({ success := true, message := some "缩放命令已处理，但可能未成功执行" }, st0)
  | some (some scale) =>
    if scale ≤ 0 then ({ success := false, message := some "缩放比例必须大于0" }, st0)
    else
      match env.browser with
      | none =>
        if env.selfCM then
          let r := doBroadcast st0 env.fails (some "command")
          if r.2 then ({ success := true, message := some "已发送缩放命令" }, r.1)
          else jsSection env r.1 "缩放操作成功" "缩放命令已通过WebSocket广播" "已尝试执行缩放操作" "缩放操作执行成功"
        else
          let r := broadcast_command st0 env.fails
          jsSection env r.1 "缩放操作成功" "缩放命令已通过WebSocket广播" "已尝试执行缩放操作" "缩放操作执行成功"
      | some _ =>
        jsSection env st0 "缩放操作成功" "缩放命令已通过WebSocket广播" "已尝试执行缩放操作" "缩放操作执行成功"

/-- `MCPServer.execute_focus_operation` (mcp_server.py:1170-1208): a falsy
target is rejected; otherwise the command is broadcast via
`broadcast_command`, and a zero-delivery broadcast yields `success = False`
with an error field. -/
def execute_focus_operation (env : OpEnv) (params : List (String × Val)) :
    HandlerResult × OpState :=
  let st0 : OpState := { cm := env.cm, effects := [] }
  if !pyTruthy (dlookup "target" params) then
    ({ success := false, message := some "缺少目标参数" }, st0)
  else
    let r := broadcast_command st0 env.fails
    if !r.2 then
      ({ success := false, error := some "没有活跃的WebSocket连接，无法执行聚焦操作" }, r.1)
    else ({ success := true, message := some "已发送聚焦命令" }, r.1)

/-- `MCPServer.execute_reset_operation` (mcp_server.py:1210-1239): broadcast
the reset command; a zero-delivery broadcast yields `success = False`. -/
def execute_reset_operation (env : OpEnv) (params : List (String × Val)) :
    HandlerResult × OpState :=
  let st0 : OpState := { cm := env.cm, effects := [] }
  let r := broadcast_command st0 env.fails
  if !r.2 then
    ({ success := false, error := some "没有活跃的WebSocket连接，无法执行重置操作" }, r.1)
  else ({ success := true, message := some "已发送重置视图命令" }, r.1)

/-! ## Command dispatcher (`MCPServer.handle_command`, mcp_server.py:503-634)

For the dispatcher-level claims a handler is an opaque function from a
parameter dict to a result dict (every handler in the repository returns a
dict).  The server is its registered-handler table (`OperationHandler`,
mcp_server.py:1415-1431) plus the table of built-in
`execute_{action}_operation` methods reachable through the `getattr`
fallback at mcp_server.py:576-579. -/

/-- A dispatcher-level handler. -/
def HandlerFn : Type := List (String × Val) → HandlerResult

/-- The dispatcher's view of the server: the `OperationHandler` registry and
the built-in fallback methods, keyed by the `action` such that
`execute_{action}_operation` exists on the class. -/
structure ServerModel where
  handlers : List (String × HandlerFn)
  builtinMethods : List (String × HandlerFn)

/-- Python falsiness of an optional string field (`if not action`). -/
def falsyS : Option String → Bool
  | none => true
  | some s => s == ""

/-- The nested `command` dict of the wire form
`{"type": "mcp.command", "command": {...}}` (mcp_server.py:515-521). -/
structure NestedCmd where
  action : Option String
  parameters : List (String × Val)
  target : Option String

/-- An incoming `mcp.command` payload as `handle_command` reads it: the
optional top-level `id`, `command_id`, nested `command`, `action`, `type`,
`operation` and `target` fields and the `parameters` dict. -/
structure CommandData where
  id : Option String
  command_id : Option String
  command : Option NestedCmd
  action : Option String
  type : Option String
  operation : Option String
  parameters : List (String × Val)
  target : Option String

/-- Command-id extraction (mcp_server.py:512):
`command_data.get("id") or command_data.get("command_id") or str(uuid4())`,
with `fresh` standing for the generated UUID. -/
def extractCommandId (d : CommandData) (fresh : String) : String :=
  if !falsyS d.id then d.id.getD ""
  else if !falsyS d.command_id then d.command_id.getD ""
  else fresh

/-- Action normalization (mcp_server.py:515-537): prefer the nested
command's `action`, else the top-level `action`; when falsy, fall back to
`type`, replacing a literal `"mcp.command"` by the `operation` field. -/
def normalizedAction (d : CommandData) : Option String :=
  let action0 := match d.command with
    | some nc => nc.action
    | none => d.action
  if !falsyS action0 then action0
  else
    let a1 := d.type
    if a1 == some "mcp.command" then d.operation else a1

/-- Handler resolution (mcp_server.py:572-579): the registry first, then the
`execute_{action}_operation` built-in method fallback. -/
def resolveHandler (srv : ServerModel) (action : String) : Option HandlerFn :=
  match dlookup action srv.handlers with
  | some h => some h
  | none => dlookup action srv.builtinMethods

/-- The `mcp.response` message sent back by `handle_command`
(mcp_server.py:539-545, 581-587, 594-616); the timestamp is dropped. -/
structure Response where
  type : String
  command_id : String
  status : String
  message : String

/-- Outcome of `handle_command`: the response sent on the originating socket
and whether any operation handler was invoked. -/
structure HandleOutcome where
  response : Response
  invoked : Bool

/-- `MCPServer.handle_command` (mcp_server.py:503-634).  `fresh` is the UUID
generated at line 512 and `client_id` the id resolved or registered at lines
548-565 (a transport-side lookup).  Handlers in the repository all return
dicts, so only the dict response branch (lines 595-605) is modelled. -/
def handle_command (srv : ServerModel) (d : CommandData) (fresh client_id : String) :
    HandleOutcome :=
  let command_id := extractCommandId d fresh
  let parameters := match d.command with
    | some nc => nc.parameters
    | none => d.parameters
  match normalizedAction d with
  | none =>
    { response := { type := "mcp.response", command_id := command_id, status := "error",
                    message := "命令缺少操作类型" },
      invoked := false }
  | some a =>
    if a == "" then
      { response := { type := "mcp.response", command_id := command_id, status := "error",
                      message := "命令缺少操作类型" },
        invoked := false }
    else
      let parameters := dinsert "client_id" (Val.str client_id) parameters
      match resolveHandler srv a with
      | none =>
        { response := { type := "mcp.response", command_id := command_id, status := "error",
                        message := "未找到操作处理器: " ++ a },
          invoked := false }
      | some h =>
        let result := h parameters
        { response := { type := "mcp.response", command_id := command_id,
                        status := if result.success then "success" else "error",
                        message := result.message.getD ("执行" ++ a ++ "操作") },
          invoked := true }

/-! ## Batch operation (`MCPServer.execute_batch_operation`,
mcp_server.py:1292-1327) -/

/-- A batch sub-command: its `operation` name and `params` dict. -/
structure SubCmd where
  operation : Option String
  params : List (String × Val)

/-- Dispatch of one sub-command (mcp_server.py:1302-1313): registry lookup
only; an unknown operation contributes a failure result. -/
def batchStep (handlers : List (String × HandlerFn)) (cmd : SubCmd) : HandlerResult :=
  match cmd.operation with
  | some op =>
    match dlookup op handlers with
    | some h => h cmd.params
    | none => { success := false, message := some "未知操作类型" }
  | none => { success := false, message := some "未知操作类型" }

/-- Aggregate result of a batch. -/
structure BatchResult where
  success : Bool
  message : String
  results : List HandlerResult

/-- `MCPServer.execute_batch_operation` (mcp_server.py:1292-1327): an empty
list is rejected; otherwise each sub-command runs sequentially and the
aggregate `success` is `success_count > 0`. -/
def execute_batch_operation (handlers : List (String × HandlerFn))
    (commands : List SubCmd) : BatchResult :=
  if commands.isEmpty then
    { success := false, message := "批量命令列表为空", results := [] }
  else
    let results := commands.map (batchStep handlers)
    let success_count := (results.filter (fun r => r.success)).length
    { success := decide (0 < success_count), message := "批量操作完成", results := results }

/-! ## Adapter broadcast (`MCPAdapter.broadcast_command`,
mcp_adapter.py:333-345) -/

/-- `MCPAdapter.broadcast_command`: iterate over the registered clients,
skip a truthy `exclude_client_id`, count successful sends, return the
count.  A client is a `client_id ↦ websocket` entry; `sendOk ws` is the
boolean `MCPClientConnection.send_message` returns for that socket. -/
def MCPAdapter.broadcast_command (clients : List (String × Nat))
    (exclude_client_id : Option String) (sendOk : Nat → Bool) : Nat :=
  clients.foldl (fun sent_count p =>
    if (match exclude_client_id with
        | some ex => ex != "" && p.1 == ex
        | none => false) then sent_count
    else if sendOk p.2 then sent_count + 1 else sent_count) 0

/-! ## Text scanning primitives for the two translators

The regular expressions of `parse_natural_language.py` and
`dify_processor.py` are small enough to implement directly, with Python
`re.search` semantics: leftmost starting position first, ordered
alternation, greedy quantifiers with backtracking. -/

/-- Needle-is-a-prefix test on character lists. -/
def startsWith : List Char → List Char → Bool
  | [], _ => true
  | _ :: _, [] => false
  | a :: as, b :: bs => a == b && startsWith as bs

/-- Python substring containment (`needle in hay`). -/
def containsSub (needle : List Char) : List Char → Bool
  | [] => startsWith needle []
  | c :: cs => startsWith needle (c :: cs) || containsSub needle cs

/-- Containment of any keyword of the list (the `any(k in message ...)`
guards of `parse_natural_language.py`). -/
def containsAny (needles : List String) (hay : List Char) : Bool :=
  needles.any (fun n => containsSub n.data hay)

/-- Whitespace for the `\s` class over the inputs at hand. -/
def isSpaceC (c : Char) : Bool :=
  c == ' ' || c == '\t' || c == '\n' || c == '\r' || c == '\x0b' || c == '\x0c'

/-- Digit-or-dot, the `[\d.]` class of the dify patterns. -/
def isDigitDot (c : Char) : Bool := isDigitC c || c == '.'

/-- Word characters for `\w` (ASCII word characters plus the CJK range the
inputs use; Python's `\w` is full-Unicode but only these occur here). -/
def isWordC (c : Char) : Bool :=
  isDigitC c || ('a' ≤ c && c ≤ 'z') || ('A' ≤ c && c ≤ 'Z') || c == '_' ||
    (0x4E00 ≤ c.toNat && c.toNat ≤ 0x9FFF)

/-- Unit suffix of the scale pattern `(?:\s*倍|\s*times|\s*x)`
(parse_natural_language.py:52). -/
def suffixUnitScale (l : List Char) : Bool :=
  let r := l.dropWhile isSpaceC
  startsWith "倍".data r || startsWith "times".data r || startsWith "x".data r

/-- Match attempt of `(\d+\.?\d*)(?:\s*倍|\s*times|\s*x)` at one position,
with greedy backtracking on `\d+`, `\.?` and `\d*`; returns group 1. -/
def matchScaleAt (l : List Char) : Option (List Char) :=
  let d1 := l.takeWhile isDigitC
  if d1.isEmpty then none
  else
    (List.range d1.length).findSome? (fun i =>
      let k := d1.length - i
      let pre := d1.take k
      let rest := l.drop k
      let tryTail (g r : List Char) : Option (List Char) :=
        let dm := r.takeWhile isDigitC
        (List.range (dm.length + 1)).findSome? (fun j =>
          let mlen := dm.length - j
          if suffixUnitScale (r.drop mlen) then some (g ++ dm.take mlen) else none)
      match rest with
      | '.' :: r2 =>
        match tryTail (pre ++ ['.']) r2 with
        | some g => some g
        | none => tryTail pre rest
      | _ => tryTail pre rest)

/-- Leftmost `re.search` of the scale pattern. -/
def searchScale : List Char → Option (List Char)
  | [] => none
  | c :: cs =>
    match matchScaleAt (c :: cs) with
    | some g => some g
    | none => searchScale cs

/-- Unit suffix of the angle pattern `(?:\s*度|°|\s*degree)`
(parse_natural_language.py:39). -/
def suffixUnitAngle (l : List Char) : Bool :=
  let r := l.dropWhile isSpaceC
  startsWith "度".data r || startsWith "°".data l || startsWith "degree".data r

/-- Match attempt of `(\d+)(?:\s*度|°|\s*degree)` at one position. -/
def matchAngleAt (l : List Char) : Option (List Char) :=
  let d1 := l.takeWhile isDigitC
  if d1.isEmpty then none
  else
    (List.range d1.length).findSome? (fun i =>
      let k := d1.length - i
      if suffixUnitAngle (l.drop k) then some (d1.take k) else none)

/-- Leftmost `re.search` of the angle pattern. -/
def searchAngle : List Char → Option (List Char)
  | [] => none
  | c :: cs =>
    match matchAngleAt (c :: cs) with
    | some g => some g
    | none => searchAngle cs

/-- Chinese numerals accepted by the area pattern. -/
def zhNumeral (c : Char) : Bool :=
  c ∈ ['一', '二', '三', '四', '五', '六', '七', '八', '九', '十']

/-- The `zh_digits` table (parse_natural_language.py:78-79). -/
def zhDigit (c : Char) : Option String :=
  if c = '一' then some "1" else if c = '二' then some "2"
  else if c = '三' then some "3" else if c = '四' then some "4"
  else if c = '五' then some "5" else if c = '六' then some "6"
  else if c = '七' then some "7" else if c = '八' then some "8"
  else if c = '九' then some "9" else if c = '十' then some "10"
  else none

/-- Group of the area pattern `(\d+|[一二三四五六七八九十]|\w+)`: digits
first, else one Chinese numeral, else a word run. -/
def areaGroup (r : List Char) : Option (List Char) :=
  let d := r.takeWhile isDigitC
  if !d.isEmpty then some d
  else
    match r with
    | c :: _ =>
      if zhNumeral c then some [c]
      else
        let w := r.takeWhile isWordC
        if !w.isEmpty then some w else none
    | [] => none

/-- Match attempt of the area pattern
`(?:区域|area|区|区块|部分|part|component|组件)\s*(group)` at one position,
trying the prefix alternatives in order (parse_natural_language.py:71). -/
def matchAreaAt (l : List Char) : Option (List Char) :=
  ["区域", "area", "区", "区块", "部分", "part", "component", "组件"].findSome?
    (fun p =>
      if startsWith p.data l then
        areaGroup ((l.drop p.data.length).dropWhile isSpaceC)
      else none)

/-- Leftmost `re.search` of the area pattern. -/
def searchArea : List Char → Option (List Char)
  | [] => none
  | c :: cs =>
    match matchAreaAt (c :: cs) with
    | some g => some g
    | none => searchArea cs

/-! ## Natural-language translator (`parse_natural_language.py:13-96`) -/

/-- `parse_natural_language`: keyword-triggered rules in priority order
rotate, zoom, focus, reset; returns `("", [])` when nothing matches.  The
numeric defaults (30, 2.0, 0.5, 1.5) are the source's literals. -/
def parse_natural_language (message : String) : String × List (String × Val) :=
  let msg := message.data.map Char.toLower
  if containsAny ["旋转", "rotate", "turn", "spin"] msg then
    let direction :=
      if containsAny ["左", "left"] msg then "left"
      else if containsAny ["右", "right"] msg then "right"
      else if containsAny ["上", "up"] msg then "up"
      else if containsAny ["下", "down"] msg then "down"
      else "left"
    let angle : ℚ := match searchAngle msg with
      | some g => (pyFloatStr g).getD 0
      | none => 30
    ("rotate", [("direction", Val.str direction), ("angle", Val.num angle)])
  else if containsAny ["缩放", "放大", "缩小", "zoom", "scale", "magnify", "shrink"] msg then
    let scale : ℚ := match searchScale msg with
      | some g => (pyFloatStr g).getD 0
      | none =>
        if containsAny ["放大", "magnify", "larger"] msg then 2
        else if containsAny ["缩小", "shrink", "smaller"] msg then 1 / 2
        else 3 / 2
    ("zoom", [("scale", Val.num scale)])
  else if containsAny ["聚焦", "焦点", "集中", "关注", "focus", "zoom to", "look at",
      "定位", "locate"] msg then
    let target :=
      match searchArea msg with
      | some g =>
        let aid : String := match g with
          | [c] => match zhDigit c with
            | some d => d
            | none => ⟨g⟩
          | _ => ⟨g⟩
        "area" ++ aid
      | none =>
        if containsAny ["中心", "center", "中央", "central", "middle"] msg then "center"
        else "center"
    ("focus", [("target", Val.str target)])
  else if containsAny ["重置", "复位", "reset", "restore", "default", "初始", "original"] msg then
    ("reset", [])
  else ("", [])

/-! ## Dify text extractor (`dify_processor.py:159-238`) -/

/-- The operation object `extract_model_operation_from_text` returns. -/
inductive DifyOp where
  | reset
  | rotate (direction : String) (angle : Int)
  | zoom (scale : ℚ)
  | focus (target : String)
deriving DecidableEq, Repr

/-- Python `int(float_value)`: truncation toward zero. -/
def pyInt (q : ℚ) : Int := if 0 ≤ q then q.floor else -((-q).floor)

/-- Core of `PATTERN_ROTATE = (?:向|)(左|右)(?:旋转|)(?:([\d\.]+)(?:度|))?`
after the optional `向`: a direction character, an optional literal `旋转`,
then the optional digit-dot group. -/
def tryRotateCore (r : List Char) : Option (Char × Option (List Char)) :=
  match r with
  | c :: rest =>
    if c = '左' || c = '右' then
      let rest2 := if startsWith "旋转".data rest then rest.drop 2 else rest
      let run := rest2.takeWhile isDigitDot
      some (c, if run.isEmpty then none else some run)
    else none
  | [] => none

/-- Match attempt of `PATTERN_ROTATE` at one position (`向` tried first,
then the empty alternative). -/
def matchRotateDifyAt (l : List Char) : Option (Char × Option (List Char)) :=
  match l with
  | '向' :: rest =>
    match tryRotateCore rest with
    | some r => some r
    | none => tryRotateCore l
  | _ => tryRotateCore l

/-- Leftmost `re.search` of `PATTERN_ROTATE`. -/
def searchRotateDify : List Char → Option (Char × Option (List Char))
  | [] => none
  | c :: cs =>
    match matchRotateDifyAt (c :: cs) with
    | some r => some r
    | none => searchRotateDify cs

/-- Match attempt of `PATTERN_ZOOM = (?:放大|缩小)([\d.]+)(?:倍|)` at one
position; the trailing alternation always matches, so group 1 is the
maximal digit-dot run after the keyword. -/
def matchZoomDifyAt (l : List Char) : Option (List Char) :=
  let after :=
    if startsWith "放大".data l then some (l.drop 2)
    else if startsWith "缩小".data l then some (l.drop 2)
    else none
  match after with
  | some r =>
    let run := r.takeWhile isDigitDot
    if run.isEmpty then none else some run
  | none => none

/-- Leftmost `re.search` of `PATTERN_ZOOM`. -/
def searchZoomDify : List Char → Option (List Char)
  | [] => none
  | c :: cs =>
    match matchZoomDifyAt (c :: cs) with
    | some g => some g
    | none => searchZoomDify cs

/-- Match attempt of `PATTERN_FOCUS = 聚焦(?:到|)?([\w\d_]+)` at one
position (`到` tried first; on failure the group may start at `到` itself,
a word character). -/
def matchFocusDifyAt (l : List Char) : Option (List Char) :=
  if startsWith "聚焦".data l then
    let r := l.drop 2
    match r with
    | '到' :: r2 =>
      let run := r2.takeWhile isWordC
      if !run.isEmpty then some run
      else
        let run2 := r.takeWhile isWordC
        if !run2.isEmpty then some run2 else none
    | _ =>
      let run2 := r.takeWhile isWordC
      if !run2.isEmpty then some run2 else none
  else none

/-- Leftmost `re.search` of `PATTERN_FOCUS`. -/
def searchFocusDify : List Char → Option (List Char)
  | [] => none
  | c :: cs =>
    match matchFocusDifyAt (c :: cs) with
    | some g => some g
    | none => searchFocusDify cs

/-- `extract_model_operation_from_text` (dify_processor.py:159-238): reset,
rotate, zoom and focus rules in that order; the zoom rule keeps the literal
scale but replaces it by `1/scale` when the text contains `缩小` and the
scale exceeds 1 (lines 215-217). -/
def extract_model_operation_from_text (text : String) : Option DifyOp :=
  if text = "" then none
  else
    let t := text.data.map Char.toLower
    if containsAny ["重置", "复位", "恢复"] t then some DifyOp.reset
    else
      match searchRotateDify t, containsSub "旋转".data t with
      | some rm, _ =>
        let direction := if rm.1 = '右' then "right" else "left"
        let angle : Int := match rm.2 with
          | some g =>
            match pyFloatStr g with
            | some q => pyInt q
            | none => 45
          | none => 45
        some (DifyOp.rotate direction angle)
      | none, true => some (DifyOp.rotate "left" 45)
      | none, false =>
        let zoomHit := searchZoomDify t
        if zoomHit.isSome || containsSub "放大".data t || containsSub "缩小".data t then
          let scale : ℚ := match zoomHit with
            | some g =>
              match pyFloatStr g with
              | some q => q
              | none => 3 / 2
            | none => 3 / 2
          let scale := if containsSub "缩小".data t && 1 < scale then 1 / scale else scale
          some (DifyOp.zoom scale)
        else
          match searchFocusDify t with
          | some target => some (DifyOp.focus ⟨target⟩)
          | none => none

/-! ## Registry traces and invariants

The registry claims quantify over sequences of registry operations; an
operation is one call of `connect`, `disconnect`, `broadcast` or
`send_to_client` together with the environment data (session derivation
outcome, transport failures) that call observed. -/

/-- One registry operation with its observed environment. -/
inductive RegistryOp where
  | connectOp (ws : Nat) (ch : String) (cid? : Option String) (host session : String)
  | disconnectOp (w : Option Nat) (cid? : Option String)
  | broadcastOp (ch? : Option String) (ex : Option String) (fails : Nat → Bool)
  | sendOp (cid : String) (fails : Nat → Bool)

/-- State transformer of one registry operation. -/
def applyOp (m : ConnectionManager) : RegistryOp → ConnectionManager
  | RegistryOp.connectOp ws ch cid? host session => (m.connect ws ch cid? host session).1
  | RegistryOp.disconnectOp w cid? => m.disconnect w cid?
  | RegistryOp.broadcastOp ch? ex f => (m.broadcast ch? ex f).1
  | RegistryOp.sendOp cid f => (m.send_to_client cid f).1

/-- Side conditions under which an operation keeps the two indices
consistent: a connect must not re-register a live client id under a
different channel, and a broadcast must name an existing channel (the
all-channel broadcast prunes only the global index, and a connect that
rebinds a live client id to a new channel leaves the old channel entry
behind — both refute the unconditional claim). -/
def goodOp (m : ConnectionManager) : RegistryOp → Bool
  | RegistryOp.connectOp _ ch cid? host session =>
    (match dlookup (effectiveClientId cid? host session) m.active_connections with
     | none => true
     | some info => info.endpointType == ch)
  | RegistryOp.disconnectOp _ _ => true
  | RegistryOp.broadcastOp ch? _ _ =>
    (match ch? with
     | some ch => ch != "" && (dlookup ch m.endpoint_connections).isSome
     | none => false)
  | RegistryOp.sendOp _ _ => true

/-- All operations of a trace satisfy their side condition at the state they
run in. -/
def goodTrace (m : ConnectionManager) : List RegistryOp → Bool
  | [] => true
  | op :: ops => goodOp m op && goodTrace (applyOp m op) ops

/-- Key list without duplicates: the defining property of a Python dict. -/
def NodupKeys {α : Type} (l : List (String × α)) : Prop := (l.map Prod.fst).Nodup

/-- Mutual consistency of the two indices, as the claim states it: every
registered client's channel exists as a key, and a client id is a key of a
channel map exactly when the global index holds it with that channel. -/
def consistent (m : ConnectionManager) : Prop :=
  (∀ cid info, dlookup cid m.active_connections = some info →
    (dlookup info.endpointType m.endpoint_connections).isSome) ∧
  (∀ cid ch inner, dlookup ch m.endpoint_connections = some inner →
    ((dlookup cid inner).isSome ↔
      ∃ info, dlookup cid m.active_connections = some info ∧ info.endpointType = ch))

/-- Full registry invariant: dict-key uniqueness of all three maps plus the
consistency of the claim. -/
structure Inv (m : ConnectionManager) : Prop where
  an : NodupKeys m.active_connections
  en : NodupKeys m.endpoint_connections
  inn : ∀ ch inner, dlookup ch m.endpoint_connections = some inner → NodupKeys inner
  coh : consistent m

/-- No live client on any channel. -/
def noClients (m : ConnectionManager) : Prop :=
  ∀ p ∈ m.endpoint_connections, p.2 = []

/-- Numeric value of an optional `Val`, used to read a scale parameter. -/
def getNum : Option Val → Option ℚ
  | some (Val.num q) => some q
  | _ => none

/-- Python's numeric reading of a bool (`int(True) = 1`), used to compare
the boolean `ConnectionManager.broadcast` returns against a delivery
count. -/
def pyBoolInt (b : Bool) : Nat := if b then 1 else 0

/-! # Theorems

First a toolbox of association-list lemmas, then the ten claims in order. -/

theorem dlookup_dinsert {α : Type} (k q : String) (v : α) (l : List (String × α)) :
    dlookup q (dinsert k v l) = if k = q then some v else dlookup q l := by
  induction l with
  | nil => simp [dinsert, dlookup]
  | cons p rest ih =>
    obtain ⟨k0, v0⟩ := p
    by_cases h : k0 = k
    · subst h
      by_cases hq : k0 = q <;> simp [dinsert, dlookup, hq]
    · by_cases hq : k0 = q
      · subst hq
        have hne : k ≠ k0 := fun he => h he.symm
        simp [dinsert, dlookup, h, hne]
      · simp [dinsert, dlookup, h, hq, ih]

theorem dlookup_derase {α : Type} (k q : String) (l : List (String × α)) :
    dlookup q (derase k l) = if k = q then none else dlookup q l := by
  induction l with
  | nil => simp [derase, dlookup]
  | cons p rest ih =>
    obtain ⟨k0, v0⟩ := p
    by_cases h : k0 = k
    · subst h
      by_cases hq : k0 = q
      · subst hq
        simp [derase, dlookup, ih]
      · simp [derase, dlookup, hq, ih]
    · by_cases hq : k0 = q
      · subst hq
        have hne : k ≠ k0 := fun he => h he.symm
        simp [derase, dlookup, h, hne]
      · simp [derase, dlookup, h, hq, ih]

theorem mem_dkeys_of_dlookup {α : Type} {q : String} {v : α} {l : List (String × α)}
    (h : dlookup q l = some v) : q ∈ dkeys l := by
  induction l with
  | nil => simp [dlookup] at h
  | cons p rest ih =>
    obtain ⟨k0, v0⟩ := p
    by_cases hq : k0 = q
    · subst hq; simp [dkeys]
    · simp [dlookup, hq] at h
      simpa [dkeys] using Or.inr (ih h)

theorem dlookup_isSome_iff_mem {α : Type} (q : String) (l : List (String × α)) :
    (dlookup q l).isSome ↔ q ∈ dkeys l := by
  induction l with
  | nil => simp [dlookup, dkeys]
  | cons p rest ih =>
    obtain ⟨k0, v0⟩ := p
    have hk : dkeys ((k0, v0) :: rest) = k0 :: dkeys rest := rfl
    by_cases hq : k0 = q
    · subst hq; simp [dlookup, hk]
    · have hne : q ≠ k0 := fun he => hq he.symm
      rw [hk]
      simp only [List.mem_cons, hne, false_or]
      rw [← ih]
      simp [dlookup, hq]

theorem dlookup_eq_none_of_not_mem {α : Type} {q : String} {l : List (String × α)}
    (h : q ∉ dkeys l) : dlookup q l = none := by
  cases hl : dlookup q l with
  | none => rfl
  | some v => exact absurd (mem_dkeys_of_dlookup hl) h

theorem dlookup_filter {α : Type} (q : String) (g : String × α → Bool)
    (l : List (String × α)) (hn : NodupKeys l) :
    dlookup q (l.filter g) =
      (dlookup q l).bind (fun v => if g (q, v) then some v else none) := by
  induction l with
  | nil => simp [dlookup]
  | cons p rest ih =>
    obtain ⟨k0, v0⟩ := p
    have hn' : NodupKeys rest := by
      simpa [NodupKeys] using (List.nodup_cons.mp hn).2
    have hk0 : k0 ∉ dkeys rest := by
      simpa [NodupKeys, dkeys] using (List.nodup_cons.mp hn).1
    by_cases hq : k0 = q
    · subst hq
      by_cases hg : g (k0, v0)
      · simp [List.filter_cons, hg, dlookup]
      · have : dlookup k0 (rest.filter g) = none := by
          apply dlookup_eq_none_of_not_mem
          intro hmem
          apply hk0
          have hsub : List.Sublist ((rest.filter g).map Prod.fst) (rest.map Prod.fst) :=
            (List.filter_sublist rest).map Prod.fst
          exact hsub.mem hmem
        simp [List.filter_cons, hg, dlookup, this]
    · by_cases hg : g (k0, v0) <;>
        simp [List.filter_cons, hg, dlookup, hq, ih hn']

theorem derase_sublist {α : Type} (k : String) (l : List (String × α)) :
    List.Sublist (derase k l) l := by
  induction l with
  | nil => simp [derase]
  | cons p rest ih =>
    obtain ⟨k0, v0⟩ := p
    by_cases h : k0 = k
    · simpa [derase, h] using ih.cons (k0, v0)
    · simpa [derase, h] using ih.cons₂ (k0, v0)

theorem nodup_derase {α : Type} (k : String) {l : List (String × α)}
    (h : NodupKeys l) : NodupKeys (derase k l) :=
  List.Nodup.sublist ((derase_sublist k l).map Prod.fst) h

theorem nodup_filter {α : Type} (g : String × α → Bool) {l : List (String × α)}
    (h : NodupKeys l) : NodupKeys (l.filter g) :=
  List.Nodup.sublist ((List.filter_sublist l).map Prod.fst) h

theorem dkeys_dinsert {α : Type} (k : String) (v : α) (l : List (String × α)) :
    dkeys (dinsert k v l) = if k ∈ dkeys l then dkeys l else dkeys l ++ [k] := by
  induction l with
  | nil => simp [dinsert, dkeys]
  | cons p rest ih =>
    obtain ⟨k0, v0⟩ := p
    have hc : dkeys ((k0, v0) :: rest) = k0 :: dkeys rest := rfl
    by_cases hk : k0 = k
    · subst hk
      simp [dinsert, hc, dkeys]
    · have hne : k ≠ k0 := fun he => hk he.symm
      have hd : dinsert k v ((k0, v0) :: rest) = (k0, v0) :: dinsert k v rest := by
        simp [dinsert, hk]
      rw [hd, hc]
      have hc2 : dkeys ((k0, v0) :: dinsert k v rest) = k0 :: dkeys (dinsert k v rest) := rfl
      rw [hc2, ih]
      by_cases hm : k ∈ dkeys rest
      · simp [hm, hne]
      · simp [hm, hne]

theorem nodup_dinsert {α : Type} (k : String) (v : α) {l : List (String × α)}
    (h : NodupKeys l) : NodupKeys (dinsert k v l) := by
  unfold NodupKeys at h ⊢
  have : (dinsert k v l).map Prod.fst = dkeys (dinsert k v l) := rfl
  rw [this, dkeys_dinsert]
  by_cases hm : k ∈ dkeys l
  · rw [if_pos hm]; exact h
  · rw [if_neg hm]
    rw [List.nodup_append]
    refine ⟨h, List.nodup_singleton k, ?_⟩
    intro a ha hb
    simp at hb
    subst hb
    exact hm ha

theorem dlookup_append_single {α : Type} (q k : String) (v : α) (l : List (String × α)) :
    dlookup q (l ++ [(k, v)]) =
      match dlookup q l with
      | some w => some w
      | none => if k = q then some v else none := by
  induction l with
  | nil => simp [dlookup]
  | cons p rest ih =>
    obtain ⟨k0, v0⟩ := p
    by_cases hq : k0 = q <;> simp [dlookup, hq, ih]

theorem dlookup_epErase (ep cid ch : String) (m : List (String × List (String × Nat))) :
    dlookup ch (epErase ep cid m) =
      if ep = ch then (dlookup ch m).map (derase cid) else dlookup ch m := by
  unfold epErase
  cases hl : dlookup ep m with
  | none =>
    by_cases he : ep = ch
    · subst he; simp [hl]
    · simp [he]
  | some inner =>
    rw [dlookup_dinsert]
    by_cases he : ep = ch
    · subst he; simp [hl]
    · simp [he]

theorem dlookup_epInsert (ep cid ch : String) (ws : Nat)
    (m : List (String × List (String × Nat))) :
    dlookup ch (epInsert ep cid ws m) =
      if ep = ch then some (dinsert cid ws ((dlookup ep m).getD []))
      else dlookup ch m := by
  unfold epInsert
  cases hl : dlookup ep m with
  | none =>
    rw [dlookup_append_single]
    by_cases he : ep = ch
    · subst he; simp [hl, dinsert]
    · cases hq : dlookup ch m <;> simp [he, hq]
  | some inner =>
    rw [dlookup_dinsert]
    by_cases he : ep = ch
    · subst he; simp [hl]
    · simp [he]

theorem filter_length_pos {α : Type} (l : List α) (p : α → Bool) :
    0 < (l.filter p).length ↔ ∃ x ∈ l, p x := by
  induction l with
  | nil => simp
  | cons a t ih => by_cases h : p a <;> simp [List.filter_cons, h, ih]

/-! ### Session parsing lemmas (claim C1) -/

theorem pySplit_cons (sep c : Char) (cs : List Char) :
    pySplit sep (c :: cs) =
      match pySplit sep cs with
      | [] => [[]]
      | h :: t => if c = sep then [] :: h :: t else (c :: h) :: t := rfl

theorem pySplit_ne_nil (sep : Char) (l : List Char) : pySplit sep l ≠ [] := by
  cases l with
  | nil => simp [pySplit]
  | cons c cs =>
    rw [pySplit_cons]
    cases pySplit sep cs with
    | nil => simp
    | cons h t => by_cases hc : c = sep <;> simp [hc]

theorem pySplit_no_sep (sep : Char) (l : List Char) (h : sep ∉ l) :
    pySplit sep l = [l] := by
  induction l with
  | nil => simp [pySplit]
  | cons c cs ih =>
    have hc : c ≠ sep := by
      intro he
      exact h (he ▸ List.mem_cons_self c cs)
    have hcs : sep ∉ cs := fun hm => h (List.mem_cons_of_mem c hm)
    rw [pySplit_cons, ih hcs]
    simp [hc]

theorem pySplit_append (sep : Char) (h s : List Char) (hh : sep ∉ h) :
    pySplit sep (h ++ sep :: s) = h :: pySplit sep s := by
  induction h with
  | nil =>
    rw [List.nil_append, pySplit_cons]
    cases hps : pySplit sep s with
    | nil => exact absurd hps (pySplit_ne_nil sep s)
    | cons x t => simp
  | cons c cs ih =>
    have hc : c ≠ sep := by
      intro he
      exact hh (he ▸ List.mem_cons_self c cs)
    have hcs : sep ∉ cs := fun hm => hh (List.mem_cons_of_mem c hm)
    rw [List.cons_append, pySplit_cons, ih hcs]
    simp [hc]

theorem data_mk_append (host s : String) :
    (host ++ "_" ++ s).data = host.data ++ '_' :: s.data := by
  rw [String.data_append, String.data_append]
  simp

theorem parsedSession_mk (host s : String) (hh : '_' ∉ host.data) (hs : '_' ∉ s.data) :
    parsedSession (host ++ "_" ++ s) = s := by
  have hmem : '_' ∈ (host ++ "_" ++ s).data := by
    rw [data_mk_append]
    exact List.mem_append_right _ (List.mem_cons_self _ _)
  unfold parsedSession
  rw [if_pos hmem, data_mk_append, pySplit_append _ _ _ hh, pySplit_no_sep _ _ hs]
  rfl

theorem mkCid_ne_empty (host s : String) : host ++ "_" ++ s ≠ "" := by
  intro he
  have hd := congrArg String.data he
  rw [data_mk_append] at hd
  simpa using congrArg List.length hd

theorem mkCid_ne (h1 h2 s : String) (hh1 : '_' ∉ h1.data) (hh2 : '_' ∉ h2.data)
    (hne : h1 ≠ h2) : h1 ++ "_" ++ s ≠ h2 ++ "_" ++ s := by
  intro he
  apply hne
  have hd := congrArg String.data he
  rw [data_mk_append, data_mk_append] at hd
  have hsp := congrArg (pySplit '_') hd
  rw [pySplit_append _ _ _ hh1, pySplit_append _ _ _ hh2] at hsp
  have hdata : h1.data = h2.data := (List.cons_eq_cons.mp hsp).1
  cases h1
  cases h2
  exact congrArg String.mk hdata

/-- Claim C1 (counterexample): the dedup check of `ConnectionManager.connect`
compares `existing_id.split('_')[1]` against the new session token, so a
session token containing an underscore (tokens come verbatim from the
client's first WebSocket message) defeats it: two connects with session
token `a_b` on channel `command` from hosts `h1` and `h2` leave two live
Connections for the pair, not one. -/
theorem connect_dedup_counterexample :
    liveFor ((ConnectionManager.init.connect 1 "command" none "h1" "a_b").1.connect 2
      "command" none "h2" "a_b").1 "a_b" "command" = ["h1_a_b", "h2_a_b"] := by decide

/-- Claim C1 (amended): for auto-generated client ids whose host and session
token are underscore-free — the shape `connect` itself generates — the
invariant holds: two connects with the same session token and channel leave
exactly one live Connection for the pair, and when the client ids differ the
first connection is the one retired (sent the close notice and removed)
before the second is registered. -/
theorem connect_dedup_unique (host1 host2 s ch : String) (ws1 ws2 : Nat)
    (hh1 : '_' ∉ host1.data) (hh2 : '_' ∉ host2.data) (hs : '_' ∉ s.data) :
    ((ConnectionManager.init.connect ws1 ch none host1 s).1.connect ws2 ch none
        host2 s).1.active_connections = [(host2 ++ "_" ++ s, ⟨ws2, ch, s⟩)] ∧
    (host1 ≠ host2 →
      ((ConnectionManager.init.connect ws1 ch none host1 s).1.connect ws2 ch none
        host2 s).2.2 = [host1 ++ "_" ++ s]) := by
  have hps : parsedSession (host1 ++ "_" ++ s) = s := parsedSession_mk host1 s hh1 hs
  have hne0 : host1 ++ "_" ++ s ≠ "" := mkCid_ne_empty host1 s
  constructor
  · by_cases hhost : host1 = host2
    · subst hhost
      simp [ConnectionManager.connect, ConnectionManager.disconnect, effectiveClientId,
        dinsert, hps]
    · have hne : host1 ++ "_" ++ s ≠ host2 ++ "_" ++ s := mkCid_ne _ _ _ hh1 hh2 hhost
      simp [ConnectionManager.connect, ConnectionManager.disconnect, effectiveClientId,
        dinsert, dlookup, derase, hps, hne0, hne]
  · intro hhost
    have hne : host1 ++ "_" ++ s ≠ host2 ++ "_" ++ s := mkCid_ne _ _ _ hh1 hh2 hhost
    simp [ConnectionManager.connect, ConnectionManager.disconnect, effectiveClientId,
      dinsert, dlookup, derase, hps, hne0, hne]

/-- Witness for the amended C1 theorem at hosts `h1`, `h2` and session
token `s1` on the command channel. -/
theorem connect_dedup_unique_witness :
    ('_' ∉ ("h1" : String).data ∧ '_' ∉ ("h2" : String).data ∧
      '_' ∉ ("s1" : String).data) ∧
    (((ConnectionManager.init.connect 5 "command" none "h1" "s1").1.connect 6 "command"
        none "h2" "s1").1.active_connections = [("h2" ++ "_" ++ "s1", ⟨6, "command", "s1"⟩)] ∧
      ("h1" : String) ≠ "h2" →
        ((ConnectionManager.init.connect 5 "command" none "h1" "s1").1.connect 6 "command"
          none "h2" "s1").2.2 = ["h1" ++ "_" ++ "s1"]) :=
  ⟨⟨by decide, by decide, by decide⟩,
    fun _ => (connect_dedup_unique "h1" "h2" "s1" "command" 5 6 (by decide) (by decide)
      (by decide)).2 (by decide)⟩

/-- Claim C2: whenever `handle_command` resolves a handler (directly or via
the `execute_{action}_operation` fallback) and it runs, the `mcp.response`
carries `command_id` equal to the id extracted from the incoming command:
the top-level `id`, else `command_id`, else the freshly generated token. -/
theorem handle_command_id_correlation (srv : ServerModel) (d : CommandData)
    (fresh client_id : String)
    (h : (handle_command srv d fresh client_id).invoked = true) :
    (handle_command srv d fresh client_id).response.command_id =
      extractCommandId d fresh := by
  unfold handle_command
  cases normalizedAction d with
  | none => rfl
  | some a =>
    by_cases ha : (a == "") = true
    · simp only [ha, if_true]
    · simp only [ha, if_false, Bool.false_eq_true]
      cases resolveHandler srv a with
      | none => rfl
      | some hfn => rfl

/-- Witness for C2: a command with top-level id `cmd-1` and action `rotate`
dispatched against a one-entry registry. -/
theorem handle_command_id_correlation_witness :
    (handle_command
      { handlers := [("rotate", fun _ => { success := true })], builtinMethods := [] }
      { id := some "cmd-1", command_id := none, command := none, action := some "rotate",
        type := some "mcp.command", operation := none, parameters := [], target := none }
      "uuid-1" "cli").invoked = true ∧
    (handle_command
      { handlers := [("rotate", fun _ => { success := true })], builtinMethods := [] }
      { id := some "cmd-1", command_id := none, command := none, action := some "rotate",
        type := some "mcp.command", operation := none, parameters := [], target := none }
      "uuid-1" "cli").response.command_id =
      extractCommandId
        { id := some "cmd-1", command_id := none, command := none, action := some "rotate",
          type := some "mcp.command", operation := none, parameters := [], target := none }
        "uuid-1" :=
  ⟨rfl, handle_command_id_correlation _ _ "uuid-1" "cli" rfl⟩

/-- Claim C7: a command whose action normalizes to empty, or whose action
resolves neither in the registry nor to an `execute_{action}_operation`
built-in, is answered with an error response and no handler is invoked. -/
theorem unknown_action_rejected (srv : ServerModel) (d : CommandData)
    (fresh client_id : String)
    (h : falsyS (normalizedAction d) = true ∨
      resolveHandler srv ((normalizedAction d).getD "") = none) :
    (handle_command srv d fresh client_id).response.status = "error" ∧
    (handle_command srv d fresh client_id).invoked = false := by
  unfold handle_command
  cases hna : normalizedAction d with
  | none => exact ⟨rfl, rfl⟩
  | some a =>
    rw [hna] at h
    by_cases ha : (a == "") = true
    · simp only [ha, if_true]
      exact ⟨by trivial, by trivial⟩
    · simp only [ha, if_false, Bool.false_eq_true]
      rcases h with h | h
      · simp [falsyS] at h
        exact absurd (by simp [h]) ha
      · simp only [Option.getD_some] at h
        rw [h]
        exact ⟨by trivial, by trivial⟩

/-- Witness for C7: an unregistered action `explode` against an empty
registry is rejected without invoking anything. -/
theorem unknown_action_rejected_witness :
    (falsyS (normalizedAction
        { id := some "cmd-2", command_id := none, command := none, action := some "explode",
          type := none, operation := none, parameters := [], target := none }) = true ∨
      resolveHandler { handlers := [], builtinMethods := [] }
        ((normalizedAction
          { id := some "cmd-2", command_id := none, command := none, action := some "explode",
            type := none, operation := none, parameters := [], target := none }).getD "") =
        none) ∧
    (handle_command { handlers := [], builtinMethods := [] }
      { id := some "cmd-2", command_id := none, command := none, action := some "explode",
        type := none, operation := none, parameters := [], target := none }
      "uuid-2" "cli").response.status = "error" ∧
    (handle_command { handlers := [], builtinMethods := [] }
      { id := some "cmd-2", command_id := none, command := none, action := some "explode",
        type := none, operation := none, parameters := [], target := none }
      "uuid-2" "cli").invoked = false :=
  ⟨Or.inr rfl,
    unknown_action_rejected _ _ "uuid-2" "cli" (Or.inr rfl)⟩

/-- Claim C6: a non-empty batch runs each sub-command through the registry
lookup sequentially, attaches every individual result, and aggregates with
OR: the batch succeeds exactly when at least one sub-result succeeded. -/
theorem batch_or_aggregation (handlers : List (String × HandlerFn))
    (commands : List SubCmd) (h : commands ≠ []) :
    (execute_batch_operation handlers commands).results =
      commands.map (batchStep handlers) ∧
    (execute_batch_operation handlers commands).results.length = commands.length ∧
    ((execute_batch_operation handlers commands).success = true ↔
      ∃ res ∈ (execute_batch_operation handlers commands).results, res.success = true) := by
  have hne : commands.isEmpty = false := by
    cases commands with
    | nil => exact absurd rfl h
    | cons a t => rfl
  unfold execute_batch_operation
  rw [hne]
  simp only [Bool.false_eq_true, if_false]
  refine ⟨by trivial, by simp, ?_⟩
  simp only [decide_eq_true_eq]
  exact filter_length_pos _ _

/-- Witness for C6: a batch of three sub-commands of which exactly one
succeeds aggregates to success with all three results attached. -/
theorem batch_or_aggregation_witness :
    ([⟨some "ok", []⟩, ⟨some "bad", []⟩, ⟨some "nope", []⟩] : List SubCmd) ≠ [] ∧
    ((execute_batch_operation
        [("ok", fun _ => { success := true }), ("bad", fun _ => { success := false })]
        [⟨some "ok", []⟩, ⟨some "bad", []⟩, ⟨some "nope", []⟩]).results =
      ([⟨some "ok", []⟩, ⟨some "bad", []⟩, ⟨some "nope", []⟩] : List SubCmd).map
        (batchStep [("ok", fun _ => { success := true }),
          ("bad", fun _ => { success := false })]) ∧
    (execute_batch_operation
        [("ok", fun _ => { success := true }), ("bad", fun _ => { success := false })]
        [⟨some "ok", []⟩, ⟨some "bad", []⟩, ⟨some "nope", []⟩]).results.length = 3 ∧
    ((execute_batch_operation
        [("ok", fun _ => { success := true }), ("bad", fun _ => { success := false })]
        [⟨some "ok", []⟩, ⟨some "bad", []⟩, ⟨some "nope", []⟩]).success = true ↔
      ∃ res ∈ (execute_batch_operation
        [("ok", fun _ => { success := true }), ("bad", fun _ => { success := false })]
        [⟨some "ok", []⟩, ⟨some "bad", []⟩, ⟨some "nope", []⟩]).results,
        res.success = true)) :=
  ⟨by simp,
    batch_or_aggregation
      [("ok", fun _ => { success := true }), ("bad", fun _ => { success := false })]
      [⟨some "ok", []⟩, ⟨some "bad", []⟩, ⟨some "nope", []⟩] (by simp)⟩

/-- Claim C10: `execute_zoom_operation` validates before delivering — a
missing `scale` and a non-positive extracted scale each return
`success = false` with a descriptive message, with no script execution and
no broadcast (the effect trace is empty and the registry untouched). -/
theorem zoom_validation (env : OpEnv) (params : List (String × Val)) :
    (zoomScale params = none →
      execute_zoom_operation env params =
        ({ success := false, message := some "缺少缩放参数" },
          { cm := env.cm, effects := [] })) ∧
    (∀ q, zoomScale params = some (some q) → q ≤ 0 →
      execute_zoom_operation env params =
        ({ success := false, message := some "缩放比例必须大于0" },
          { cm := env.cm, effects := [] })) := by
  constructor
  · intro h
    unfold execute_zoom_operation
    rw [h]
  · intro q h hq
    unfold execute_zoom_operation
    rw [h]
    simp [hq]

/-- Witness for C10 at a concrete negative scale and at a missing scale. -/
theorem zoom_validation_witness :
    zoomScale [("scale", Val.num (-1))] = some (some (-1)) ∧ ((-1 : ℚ) ≤ 0) ∧
    execute_zoom_operation
      { browser := none, selfCM := true, cm := ConnectionManager.init, fails := fun _ => false }
      [("scale", Val.num (-1))] =
      ({ success := false, message := some "缩放比例必须大于0" },
        { cm := ConnectionManager.init, effects := [] }) ∧
    zoomScale [] = none ∧
    execute_zoom_operation
      { browser := none, selfCM := true, cm := ConnectionManager.init, fails := fun _ => false }
      [] =
      ({ success := false, message := some "缺少缩放参数" },
        { cm := ConnectionManager.init, effects := [] }) :=
  ⟨rfl, by norm_num,
    (zoom_validation _ _).2 (-1) rfl (by norm_num),
    rfl,
    (zoom_validation _ _).1 rfl⟩

/-! ### Broadcast lemmas (claims C4, C5) -/

theorem dlookup_mem {α : Type} {q : String} {v : α} {l : List (String × α)}
    (h : dlookup q l = some v) : (q, v) ∈ l := by
  induction l with
  | nil => simp [dlookup] at h
  | cons p rest ih =>
    obtain ⟨k0, v0⟩ := p
    by_cases hq : k0 = q
    · subst hq
      simp [dlookup] at h
      simp [h]
    · simp [dlookup, hq] at h
      exact List.mem_cons_of_mem _ (ih h)

theorem mem_dinsert {α : Type} {k : String} {v : α} {l : List (String × α)}
    {x : String × α} (h : x ∈ dinsert k v l) : x = (k, v) ∨ x ∈ l := by
  induction l with
  | nil => simpa [dinsert] using h
  | cons p rest ih =>
    obtain ⟨k0, v0⟩ := p
    by_cases hk : k0 = k
    · rcases (by simpa [dinsert, hk] using h : x = (k, v) ∨ x ∈ rest) with h1 | h1
      · exact Or.inl h1
      · exact Or.inr (List.mem_cons_of_mem _ h1)
    · rcases (by simpa [dinsert, hk] using h : x = (k0, v0) ∨ x ∈ dinsert k v rest) with h1 | h1
      · exact Or.inr (by simp [h1])
      · rcases ih h1 with h2 | h2
        · exact Or.inl h2
        · exact Or.inr (List.mem_cons_of_mem _ h2)

theorem mem_dupdate {α : Type} {x : String × α} {acc mp : List (String × α)}
    (h : x ∈ dupdate acc mp) : x ∈ acc ∨ x ∈ mp := by
  induction mp generalizing acc with
  | nil => exact Or.inl (by simpa [dupdate] using h)
  | cons p rest ih =>
    have h' : x ∈ dupdate (dinsert p.1 p.2 acc) rest := by
      simpa [dupdate] using h
    rcases ih h' with h1 | h1
    · rcases mem_dinsert h1 with h2 | h2
      · exact Or.inr (by simp [h2])
      · exact Or.inl h2
    · exact Or.inr (List.mem_cons_of_mem _ h1)

theorem mem_allConns {x : String × Nat} {m : ConnectionManager}
    (h : x ∈ allConns m) : ∃ p ∈ m.endpoint_connections, x ∈ p.2 := by
  unfold allConns at h
  suffices haux : ∀ (L : List (String × List (String × Nat))) (acc : List (String × Nat)),
      x ∈ L.foldl (fun a p => dupdate a p.2) acc → x ∈ acc ∨ ∃ p ∈ L, x ∈ p.2 by
    rcases haux m.endpoint_connections [] h with h1 | h1
    · simp at h1
    · exact h1
  intro L
  induction L with
  | nil => intro acc h'; exact Or.inl (by simpa using h')
  | cons p rest ih =>
    intro acc h'
    have h'' : x ∈ rest.foldl (fun a q => dupdate a q.2) (dupdate acc p.2) := by
      simpa using h'
    rcases ih (dupdate acc p.2) h'' with h1 | h1
    · rcases mem_dupdate h1 with h2 | h2
      · exact Or.inl h2
      · exact Or.inr ⟨p, List.mem_cons_self _ _, h2⟩
    · obtain ⟨q, hq, hxq⟩ := h1
      exact Or.inr ⟨q, List.mem_cons_of_mem _ hq, hxq⟩

theorem broadcastTargets_of_lookup (m : ConnectionManager) (ch : String)
    (mp : List (String × Nat)) (hch : ch ≠ "")
    (h : dlookup ch m.endpoint_connections = some mp) :
    broadcastTargets m (some ch) = mp := by
  simp only [broadcastTargets]
  rw [if_pos hch, h]

theorem broadcast_zero_connections (m : ConnectionManager) (ch : String)
    (ex : Option String) (f : Nat → Bool) (hch : ch ≠ "")
    (h : dlookup ch m.endpoint_connections = some []) :
    m.broadcast (some ch) ex f = (m, false, []) := by
  unfold ConnectionManager.broadcast
  rw [broadcastTargets_of_lookup m ch [] hch h]
  rfl

theorem broadcast_bool_eq_count (m : ConnectionManager) (ch? ex : Option String)
    (f : Nat → Bool) :
    (m.broadcast ch? ex f).2.1 = decide (0 < (m.broadcast ch? ex f).2.2.length) := by
  unfold ConnectionManager.broadcast
  by_cases hemp : (broadcastTargets m ch?).isEmpty
  · rw [if_pos hemp]
    simp
  · rw [if_neg hemp]
    simp [List.length_map]

theorem adapter_count_foldl (clients : List (String × Nat)) (f : Nat → Bool) (n : Nat) :
    clients.foldl (fun sent_count p => if f p.2 then sent_count + 1 else sent_count) n =
      n + (clients.filter (fun p => f p.2)).length := by
  induction clients generalizing n with
  | nil => simp
  | cons p rest ih =>
    by_cases hf : f p.2
    · simp [List.filter_cons, hf, ih]
      ring
    · simp [List.filter_cons, hf, ih]

/-- Claim C4 (counterexample): `ConnectionManager.broadcast` does not return
the count of successful deliveries — it returns a boolean.  With two live
command-channel connections and both sends succeeding, the delivered count
is 2 yet the returned value, read as a Python integer, is 1. -/
theorem broadcast_returns_bool_counterexample :
    (((ConnectionManager.init.connect 1 "command" none "h1" "s1").1.connect 2 "command"
        none "h2" "s2").1.broadcast (some "command") none (fun _ => false)).2.2.length = 2 ∧
    pyBoolInt (((ConnectionManager.init.connect 1 "command" none "h1" "s1").1.connect 2
        "command" none "h2" "s2").1.broadcast (some "command") none
        (fun _ => false)).2.1 ≠ 2 := by decide

/-- Claim C4 (amended): `ConnectionManager.broadcast` returns the boolean
"at least one delivery succeeded" (false, without raising, when the target
channel has zero live connections), while the adapter's
`MCPAdapter.broadcast_command` is the variant that returns the count of
successful deliveries, 0 for an empty client table. -/
theorem broadcast_delivery_count_amended :
    (∀ (m : ConnectionManager) (ch : String) (ex : Option String) (f : Nat → Bool),
      ch ≠ "" → dlookup ch m.endpoint_connections = some [] →
      m.broadcast (some ch) ex f = (m, false, [])) ∧
    (∀ (m : ConnectionManager) (ch? ex : Option String) (f : Nat → Bool),
      (m.broadcast ch? ex f).2.1 = decide (0 < (m.broadcast ch? ex f).2.2.length)) ∧
    (∀ (ex : Option String) (f : Nat → Bool), MCPAdapter.broadcast_command [] ex f = 0) ∧
    (∀ (clients : List (String × Nat)) (f : Nat → Bool),
      MCPAdapter.broadcast_command clients none f =
        (clients.filter (fun p => f p.2)).length) :=
  ⟨fun m ch ex f hch h => broadcast_zero_connections m ch ex f hch h,
   fun m ch? ex f => broadcast_bool_eq_count m ch? ex f,
   fun ex f => rfl,
   fun clients f => by
     unfold MCPAdapter.broadcast_command
     simpa using adapter_count_foldl clients f 0⟩

/-- Witness for the amended C4 theorem: the freshly initialized manager has
zero command-channel connections and broadcasting there returns false with
no deliveries; the adapter returns the exact count 1 on a two-client table
with one failing socket. -/
theorem broadcast_delivery_count_amended_witness :
    (("command" : String) ≠ "" ∧
      dlookup "command" ConnectionManager.init.endpoint_connections = some []) ∧
    ConnectionManager.init.broadcast (some "command") none (fun _ => true) =
      (ConnectionManager.init, false, []) ∧
    MCPAdapter.broadcast_command [("c1", 1), ("c2", 2)] none (fun w => w == 1) =
      ([("c1", 1), ("c2", 2)].filter (fun p => p.2 == 1)).length :=
  ⟨⟨by decide, by decide⟩,
    broadcast_delivery_count_amended.1 ConnectionManager.init "command" none
      (fun _ => true) (by decide) (by decide),
    broadcast_delivery_count_amended.2.2.2 [("c1", 1), ("c2", 2)] (fun w => w == 1)⟩

/-- Claim C5: a broadcast on the command channel delivers only to clients
registered in the command channel's map, and a broadcast without a channel
targets only clients registered in some channel's map. -/
theorem broadcast_channel_isolation :
    (∀ (m : ConnectionManager) (ex : Option String) (f : Nat → Bool)
        (mp : List (String × Nat)),
      dlookup "command" m.endpoint_connections = some mp →
      ∀ cid ∈ (m.broadcast (some "command") ex f).2.2, cid ∈ dkeys mp) ∧
    (∀ (m : ConnectionManager) (ex : Option String) (f : Nat → Bool) (cid : String),
      cid ∈ (m.broadcast none ex f).2.2 →
      ∃ p ∈ m.endpoint_connections, cid ∈ dkeys p.2) := by
  constructor
  · intro m ex f mp h cid hcid
    unfold ConnectionManager.broadcast at hcid
    rw [broadcastTargets_of_lookup m "command" mp (by decide) h] at hcid
    by_cases hemp : mp.isEmpty
    · rw [if_pos hemp] at hcid
      simp at hcid
    · rw [if_neg hemp] at hcid
      simp only [List.mem_map] at hcid
      obtain ⟨p, hp, hfst⟩ := hcid
      have hp1 : p ∈ mp := (List.filter_sublist _).mem ((List.filter_sublist _).mem hp)
      subst hfst
      exact List.mem_map_of_mem Prod.fst hp1
  · intro m ex f cid hcid
    unfold ConnectionManager.broadcast at hcid
    have htc : broadcastTargets m none = allConns m := rfl
    rw [htc] at hcid
    by_cases hemp : (allConns m).isEmpty
    · rw [if_pos hemp] at hcid
      simp at hcid
    · rw [if_neg hemp] at hcid
      simp only [List.mem_map] at hcid
      obtain ⟨p, hp, hfst⟩ := hcid
      have hp1 : p ∈ allConns m := (List.filter_sublist _).mem ((List.filter_sublist _).mem hp)
      obtain ⟨q, hq, hpq⟩ := mem_allConns hp1
      subst hfst
      exact ⟨q, hq, List.mem_map_of_mem Prod.fst hpq⟩

/-- Witness for C5 on a one-connection registry: the delivered list of a
command-channel broadcast is contained in the command map's keys. -/
theorem broadcast_channel_isolation_witness :
    dlookup "command"
      (ConnectionManager.init.connect 7 "command" none "h" "s").1.endpoint_connections =
      some [("h_s", 7)] ∧
    (∀ cid ∈ ((ConnectionManager.init.connect 7 "command" none "h" "s").1.broadcast
        (some "command") none (fun _ => false)).2.2, cid ∈ dkeys [("h_s", 7)]) :=
  ⟨by decide,
    broadcast_channel_isolation.1 (ConnectionManager.init.connect 7 "command" none "h" "s").1
      none (fun _ => false) [("h_s", 7)] (by decide)⟩

/-- Claim C8 (counterexample): the translator `parse_natural_language` does
not invert a literal scale on shrink requests.  The input `缩小3倍`
(shrink three-fold) triggers its zoom rule, contains the shrink keyword,
and extracts the literal scale 3 > 1, yet the output scale is 3, not 1/3. -/
theorem shrink_inversion_counterexample :
    (parse_natural_language "缩小3倍").1 = "zoom" ∧
    containsAny ["缩小", "shrink", "smaller"] ("缩小3倍".data.map Char.toLower) = true ∧
    getNum (dlookup "scale" (parse_natural_language "缩小3倍").2) = some 3 ∧
    (1 : ℚ) < 3 ∧
    ¬ getNum (dlookup "scale" (parse_natural_language "缩小3倍").2) = some (1 / 3) := by
  have h3 : getNum (dlookup "scale" (parse_natural_language "缩小3倍").2) = some 3 := by
    decide
  refine ⟨by decide, by decide, h3, by norm_num, ?_⟩
  rw [h3]
  intro he
  have h33 : (3 : ℚ) = 1 / 3 := Option.some.inj he
  norm_num at h33

/-- Claim C8 (amended): only the dify text extractor implements the shrink
inversion, and only for the Chinese shrink keyword `缩小`: when its zoom
rule fires with an extracted literal scale above 1 on a text containing
`缩小`, the output scale is `1/scale`.  The simpler `parse_natural_language`
translator returns the extracted literal scale unchanged whenever its zoom
rule extracts one, with no inversion. -/
theorem shrink_inversion_amended :
    (∀ (text : String) (g : List Char) (q : ℚ),
      ¬ text = "" →
      containsAny ["重置", "复位", "恢复"] (text.data.map Char.toLower) = false →
      searchRotateDify (text.data.map Char.toLower) = none →
      containsSub "旋转".data (text.data.map Char.toLower) = false →
      searchZoomDify (text.data.map Char.toLower) = some g →
      pyFloatStr g = some q →
      containsSub "缩小".data (text.data.map Char.toLower) = true →
      1 < q →
      extract_model_operation_from_text text = some (DifyOp.zoom (1 / q))) ∧
    (∀ (text : String) (g : List Char) (q : ℚ),
      containsAny ["旋转", "rotate", "turn", "spin"] (text.data.map Char.toLower) = false →
      containsAny ["缩放", "放大", "缩小", "zoom", "scale", "magnify", "shrink"]
        (text.data.map Char.toLower) = true →
      searchScale (text.data.map Char.toLower) = some g →
      pyFloatStr g = some q →
      parse_natural_language text = ("zoom", [("scale", Val.num q)])) := by
  constructor
  · intro text g q hne hreset hrot1 hrot2 hzoom hfloat hshrink hq
    unfold extract_model_operation_from_text
    rw [if_neg hne]
    simp only [hreset, hrot1, hrot2, hzoom, hfloat, hshrink, Option.isSome_some,
      Bool.true_or, if_true, Bool.false_eq_true, if_false]
    simp [hq]
  · intro text g q hrot hzoomkw hscale hfloat
    unfold parse_natural_language
    simp only [hrot, hzoomkw, hscale, hfloat, Bool.false_eq_true, if_false, if_true]
    simp

/-- Witness for the amended C8 theorem at the text `缩小3倍`: the dify
extractor emits the inverted scale 1/3; `parse_natural_language` emits the
literal scale 3. -/
theorem shrink_inversion_amended_witness :
    extract_model_operation_from_text "缩小3倍" = some (DifyOp.zoom (1 / 3)) ∧
    parse_natural_language "缩小3倍" = ("zoom", [("scale", Val.num 3)]) :=
  ⟨shrink_inversion_amended.1 "缩小3倍" ['3'] 3 (by decide) (by decide) (by decide)
      (by decide) (by decide) (by decide) (by decide) (by norm_num),
    shrink_inversion_amended.2 "缩小3倍" ['3'] 3 (by decide) (by decide) (by decide)
      (by decide)⟩

/-! ### Degraded-success lemmas (claim C3) -/

theorem allConns_of_noClients (m : ConnectionManager) (h : noClients m) :
    allConns m = [] := by
  unfold allConns
  have haux : ∀ (L : List (String × List (String × Nat))), (∀ p ∈ L, p.2 = []) →
      ∀ acc, L.foldl (fun a p => dupdate a p.2) acc = acc := by
    intro L
    induction L with
    | nil => intro _ acc; rfl
    | cons p rest ih =>
      intro hL acc
      have hp : p.2 = [] := hL p (List.mem_cons_self _ _)
      have hrest : ∀ q ∈ rest, q.2 = [] := fun q hq => hL q (List.mem_cons_of_mem _ hq)
      simp only [List.foldl_cons, hp]
      exact ih hrest acc
  exact haux m.endpoint_connections h []

theorem broadcastTargets_of_noClients (m : ConnectionManager) (ch? : Option String)
    (h : noClients m) : broadcastTargets m ch? = [] := by
  cases ch? with
  | none =>
    simp only [broadcastTargets]
    exact allConns_of_noClients m h
  | some ch =>
    simp only [broadcastTargets]
    by_cases hch : ch ≠ ""
    · rw [if_pos hch]
      cases hl : dlookup ch m.endpoint_connections with
      | none => exact allConns_of_noClients m h
      | some mp => exact h (ch, mp) (dlookup_mem hl)
    · rw [if_neg hch]
      exact allConns_of_noClients m h

theorem broadcast_of_noClients (m : ConnectionManager) (h : noClients m) :
    ∀ (ch? ex : Option String) (f : Nat → Bool), m.broadcast ch? ex f = (m, false, []) := by
  intro ch? ex f
  unfold ConnectionManager.broadcast
  rw [broadcastTargets_of_noClients m ch? h]
  rfl

/-- Claim C3 (counterexample): `execute_focus_operation` with a valid
target, no direct script capability, and zero live connections returns
`success = false` — focus does not follow the degraded-success policy the
claim ascribes to all four motion operations. -/
theorem degraded_success_counterexample :
    noClients ConnectionManager.init ∧
    pyTruthy (dlookup "target" [("target", Val.str "area1")]) = true ∧
    (execute_focus_operation
      { browser := none, selfCM := true, cm := ConnectionManager.init,
        fails := fun _ => false }
      [("target", Val.str "area1")]).1.success = false := by
  refine ⟨by unfold noClients; decide, by decide, by decide⟩

/-- Claim C3 (amended): when the direct script capability is unavailable or
failing and every broadcast delivers to zero clients, the handlers for
rotate and zoom still return `success = true` with an explanatory message,
but focus (given a valid target) and reset return `success = false`. -/
theorem degraded_success_amended (env : OpEnv) (params : List (String × Val))
    (hb : env.browser = none ∨ env.browser = some ScriptBehavior.raises ∨
      env.browser = some (ScriptBehavior.dict false))
    (hnc : noClients env.cm) :
    (execute_rotate_operation env params).1.success = true ∧
    (∀ q, zoomScale params = some (some q) → 0 < q →
      (execute_zoom_operation env params).1.success = true) ∧
    (pyTruthy (dlookup "target" params) = true →
      (execute_focus_operation env params).1.success = false) ∧
    (execute_reset_operation env params).1.success = false := by
  have hbc := broadcast_of_noClients env.cm hnc
  refine ⟨?_, ?_, ?_, ?_⟩
  · rcases hb with hb | hb | hb <;>
      by_cases hcm : env.selfCM <;>
      simp [execute_rotate_operation, jsSection, motionFallback, broadcast_command,
        doBroadcast, addScript, hb, hcm, hbc]
  · intro q hscale hq
    have hle : ¬ q ≤ 0 := not_le.mpr hq
    rcases hb with hb | hb | hb <;>
      by_cases hcm : env.selfCM <;>
      simp [execute_zoom_operation, jsSection, motionFallback, broadcast_command,
        doBroadcast, addScript, hb, hcm, hbc, hscale, hle]
  · intro htarget
    simp [execute_focus_operation, broadcast_command, doBroadcast, htarget, hbc]
  · simp [execute_reset_operation, broadcast_command, doBroadcast, hbc]

/-- Witness for the amended C3 theorem: an environment with no browser and
an empty registry, and parameters carrying both a valid zoom scale and a
valid focus target. -/
theorem degraded_success_amended_witness :
    noClients ConnectionManager.init ∧
    (execute_rotate_operation
      { browser := none, selfCM := true, cm := ConnectionManager.init,
        fails := fun _ => false }
      [("target", Val.str "area1"), ("scale", Val.num 2)]).1.success = true ∧
    (execute_zoom_operation
      { browser := none, selfCM := true, cm := ConnectionManager.init,
        fails := fun _ => false }
      [("target", Val.str "area1"), ("scale", Val.num 2)]).1.success = true ∧
    (execute_focus_operation
      { browser := none, selfCM := true, cm := ConnectionManager.init,
        fails := fun _ => false }
      [("target", Val.str "area1"), ("scale", Val.num 2)]).1.success = false ∧
    (execute_reset_operation
      { browser := none, selfCM := true, cm := ConnectionManager.init,
        fails := fun _ => false }
      [("target", Val.str "area1"), ("scale", Val.num 2)]).1.success = false :=
  ⟨by unfold noClients; decide,
    (degraded_success_amended _ _ (Or.inl rfl) (by unfold noClients; decide)).1,
    (degraded_success_amended _ _ (Or.inl rfl) (by unfold noClients; decide)).2.1 2
      (by decide) (by norm_num),
    (degraded_success_amended _ _ (Or.inl rfl) (by unfold noClients; decide)).2.2.1
      (by decide),
    (degraded_success_amended _ _ (Or.inl rfl) (by unfold noClients; decide)).2.2.2⟩

/-! ### Registry invariant toolbox (claim C9) -/

theorem dlookup_of_mem_nodup {α : Type} {k : String} {v : α} {l : List (String × α)}
    (hn : NodupKeys l) (h : (k, v) ∈ l) : dlookup k l = some v := by
  induction l with
  | nil => simp at h
  | cons p rest ih =>
    obtain ⟨k0, v0⟩ := p
    have hn' : NodupKeys rest := by
      simpa [NodupKeys] using (List.nodup_cons.mp hn).2
    have hk0 : k0 ∉ dkeys rest := by
      simpa [NodupKeys, dkeys] using (List.nodup_cons.mp hn).1
    rcases List.mem_cons.mp h with h1 | h1
    · obtain ⟨hk, hv⟩ := Prod.mk.injEq .. ▸ h1
      simp [dlookup, hk.symm, hv]
    · by_cases hq : k0 = k
      · subst hq
        exact absurd (List.mem_map_of_mem Prod.fst h1) hk0
      · simp [dlookup, hq]
        exact ih hn' h1

theorem nodup_epErase (ep cid : String) {E : List (String × List (String × Nat))}
    (h : NodupKeys E) : NodupKeys (epErase ep cid E) := by
  unfold epErase
  cases dlookup ep E with
  | none => exact h
  | some inner => exact nodup_dinsert ep _ h

theorem nodup_epInsert (ep cid : String) (ws : Nat)
    {E : List (String × List (String × Nat))} (h : NodupKeys E) :
    NodupKeys (epInsert ep cid ws E) := by
  unfold epInsert
  cases hl : dlookup ep E with
  | some inner => exact nodup_dinsert ep _ h
  | none =>
    have hmem : ep ∉ dkeys E := by
      intro hm
      have := (dlookup_isSome_iff_mem ep E).mpr hm
      rw [hl] at this
      simp at this
    unfold NodupKeys
    rw [List.map_append]
    rw [List.nodup_append]
    refine ⟨h, by simp, ?_⟩
    intro a ha hb
    simp at hb
    subst hb
    exact hmem ha

theorem isSome_epErase (ep cid ch : String) (E : List (String × List (String × Nat))) :
    (dlookup ch (epErase ep cid E)).isSome = (dlookup ch E).isSome := by
  rw [dlookup_epErase]
  by_cases he : ep = ch
  · rw [if_pos he]
    cases dlookup ch E <;> rfl
  · rw [if_neg he]

theorem isSome_epInsert_mono (ep cid ch : String) (ws : Nat)
    (E : List (String × List (String × Nat))) (h : (dlookup ch E).isSome) :
    (dlookup ch (epInsert ep cid ws E)).isSome := by
  rw [dlookup_epInsert]
  by_cases he : ep = ch
  · rw [if_pos he]; rfl
  · rw [if_neg he]; exact h

theorem dlookup_foldl_derase {α : Type} (L : List String) (k : String) :
    ∀ (A : List (String × α)),
      dlookup k (L.foldl (fun a c => derase c a) A) =
        if k ∈ L then none else dlookup k A := by
  induction L with
  | nil => intro A; simp
  | cons c rest ih =>
    intro A
    simp only [List.foldl_cons]
    rw [ih (derase c A), dlookup_derase]
    by_cases hm : k ∈ rest
    · have h2 : k ∈ c :: rest := List.mem_cons_of_mem c hm
      simp [hm, h2]
    · by_cases hc : c = k
      · subst hc
        simp [hm]
      · have hnotin : k ∉ c :: rest := by
          intro hmem
          rcases List.mem_cons.mp hmem with h1 | h1
          · exact hc h1.symm
          · exact hm h1
        simp [hm, hc, hnotin]

theorem dlookup_foldl_epErase (L : List (String × ConnInfo)) (ch : String) :
    ∀ (E : List (String × List (String × Nat))),
      dlookup ch (L.foldl (fun acc p => epErase p.2.endpointType p.1 acc) E) =
        (dlookup ch E).map (fun inner =>
          L.foldl (fun i p => if p.2.endpointType = ch then derase p.1 i else i) inner) := by
  induction L with
  | nil =>
    intro E
    simp only [List.foldl_nil]
    cases h : dlookup ch E <;> simp
  | cons p rest ih =>
    intro E
    simp only [List.foldl_cons]
    rw [ih (epErase p.2.endpointType p.1 E), dlookup_epErase]
    by_cases he : p.2.endpointType = ch <;>
      cases h : dlookup ch E <;> simp [he, h]

theorem dlookup_condFoldl_derase (L : List (String × ConnInfo)) (ch k : String) :
    ∀ (inner : List (String × Nat)),
      dlookup k (L.foldl (fun i p => if p.2.endpointType = ch then derase p.1 i else i) inner) =
        if k ∈ (L.filter (fun p => p.2.endpointType == ch)).map Prod.fst then none
        else dlookup k inner := by
  induction L with
  | nil => intro inner; simp
  | cons p rest ih =>
    intro inner
    simp only [List.foldl_cons]
    by_cases he : p.2.endpointType = ch
    · have hstep : (if p.2.endpointType = ch then derase p.1 inner else inner) =
        derase p.1 inner := if_pos he
      rw [hstep, ih (derase p.1 inner), dlookup_derase]
      have hf : (((p :: rest).filter (fun q => q.2.endpointType == ch)).map Prod.fst) =
          p.1 :: ((rest.filter (fun q => q.2.endpointType == ch)).map Prod.fst) := by
        simp [List.filter_cons, he]
      rw [hf]
      by_cases hm : k ∈ (rest.filter (fun q => q.2.endpointType == ch)).map Prod.fst
      · have h2 : k ∈ p.1 :: (rest.filter (fun q => q.2.endpointType == ch)).map Prod.fst :=
          List.mem_cons_of_mem _ hm
        simp [hm, h2]
      · by_cases hk : p.1 = k
        · subst hk
          simp [hm]
        · have hnotin : k ∉ p.1 :: (rest.filter (fun q => q.2.endpointType == ch)).map
              Prod.fst := by
            intro hmem
            rcases List.mem_cons.mp hmem with h1 | h1
            · exact hk h1.symm
            · exact hm h1
          simp [hm, hk, hnotin]
    · have hstep : (if p.2.endpointType = ch then derase p.1 inner else inner) = inner :=
        if_neg he
      rw [hstep, ih inner]
      have hf : (((p :: rest).filter (fun q => q.2.endpointType == ch)).map Prod.fst) =
          ((rest.filter (fun q => q.2.endpointType == ch)).map Prod.fst) := by
        simp [List.filter_cons, he]
      rw [hf]

theorem nodup_condFoldl_derase (L : List (String × ConnInfo)) (ch : String) :
    ∀ {inner : List (String × Nat)}, NodupKeys inner →
      NodupKeys (L.foldl (fun i p => if p.2.endpointType = ch then derase p.1 i else i) inner) := by
  induction L with
  | nil => intro inner h; exact h
  | cons p rest ih =>
    intro inner h
    simp only [List.foldl_cons]
    by_cases he : p.2.endpointType = ch
    · rw [if_pos he]
      exact ih (nodup_derase p.1 h)
    · rw [if_neg he]
      exact ih h

theorem nodup_foldl_epErase (L : List (String × ConnInfo)) :
    ∀ {E : List (String × List (String × Nat))}, NodupKeys E →
      NodupKeys (L.foldl (fun acc p => epErase p.2.endpointType p.1 acc) E) := by
  induction L with
  | nil => intro E h; exact h
  | cons p rest ih =>
    intro E h
    simp only [List.foldl_cons]
    exact ih (nodup_epErase _ _ h)

/-- Removing a registered client from the global index together with its own
channel map preserves the registry invariant.  This is the state change of
the client-id branch of `disconnect` (mcp_server.py:266-276). -/
theorem Inv_removeOne {m : ConnectionManager} {cid : String} {info : ConnInfo}
    (hm : Inv m) (hl : dlookup cid m.active_connections = some info) :
    Inv { active_connections := derase cid m.active_connections,
          endpoint_connections := epErase info.endpointType cid m.endpoint_connections } := by
  refine ⟨nodup_derase cid hm.an, nodup_epErase _ _ hm.en, ?_, ?_, ?_⟩
  · intro ch inner' h'
    rw [dlookup_epErase] at h'
    by_cases he : info.endpointType = ch
    · rw [if_pos he] at h'
      cases ho : dlookup ch m.endpoint_connections with
      | none => rw [ho] at h'; exact absurd h' (by simp)
      | some inner =>
        rw [ho] at h'
        simp only [Option.map_some'] at h'
        rw [← Option.some.inj h']
        exact nodup_derase cid (hm.inn ch inner ho)
    · rw [if_neg he] at h'
      exact hm.inn ch inner' h'
  · intro cid' info' h'
    rw [dlookup_derase] at h'
    by_cases hc : cid = cid'
    · rw [if_pos hc] at h'
      exact absurd h' (by simp)
    · rw [if_neg hc] at h'
      show (dlookup info'.endpointType (epErase info.endpointType cid
        m.endpoint_connections)).isSome
      rw [isSome_epErase]
      exact hm.coh.1 cid' info' h'
  · intro cid' ch inner' h'
    rw [dlookup_epErase] at h'
    by_cases he : info.endpointType = ch
    · rw [if_pos he] at h'
      cases ho : dlookup ch m.endpoint_connections with
      | none => rw [ho] at h'; exact absurd h' (by simp)
      | some inner =>
        rw [ho] at h'
        simp only [Option.map_some'] at h'
        rw [← Option.some.inj h']
        rw [dlookup_derase]
        by_cases hc : cid = cid'
        · subst hc
          simp only [if_pos rfl]
          constructor
          · intro hs; exact absurd hs (by simp)
          · rintro ⟨info'', hi, _⟩
            rw [dlookup_derase, if_pos rfl] at hi
            exact absurd hi (by simp)
        · rw [if_neg hc]
          have hco := hm.coh.2 cid' ch inner ho
          rw [hco]
          constructor
          · rintro ⟨info'', hi, hty⟩
            exact ⟨info'', by rw [dlookup_derase, if_neg hc]; exact hi, hty⟩
          · rintro ⟨info'', hi, hty⟩
            rw [dlookup_derase, if_neg hc] at hi
            exact ⟨info'', hi, hty⟩
    · rw [if_neg he] at h'
      by_cases hc : cid = cid'
      · subst hc
        constructor
        · intro hs
          obtain ⟨info'', hi, hty⟩ := (hm.coh.2 cid ch inner' h').mp hs
          rw [hl] at hi
          rw [← Option.some.inj hi] at hty
          exact absurd hty he
        · rintro ⟨info'', hi, _⟩
          rw [dlookup_derase, if_pos rfl] at hi
          exact absurd hi (by simp)
      · rw [hm.coh.2 cid' ch inner' h']
        constructor
        · rintro ⟨info'', hi, hty⟩
          exact ⟨info'', by rw [dlookup_derase, if_neg hc]; exact hi, hty⟩
        · rintro ⟨info'', hi, hty⟩
          rw [dlookup_derase, if_neg hc] at hi
          exact ⟨info'', hi, hty⟩

theorem bind_some_eq {α β : Type} (a : α) (f : α → Option β) :
    (some a).bind f = f a := rfl

/-- The websocket-search branch of `disconnect` preserves the registry
invariant: every record holding the websocket is removed from the global
index and from its channel map. -/
theorem Inv_disconnectByWs {m : ConnectionManager} (hm : Inv m) (w : Option Nat) :
    Inv (m.disconnectByWs w) := by
  cases w with
  | none => exact hm
  | some ws =>
    unfold ConnectionManager.disconnectByWs
    refine ⟨nodup_filter _ hm.an, nodup_foldl_epErase _ hm.en, ?_, ?_, ?_⟩
    · intro ch inner' h'
      rw [dlookup_foldl_epErase] at h'
      cases ho : dlookup ch m.endpoint_connections with
      | none => rw [ho] at h'; exact absurd h' (by simp)
      | some inner =>
        rw [ho] at h'
        simp only [Option.map_some'] at h'
        rw [← Option.some.inj h']
        exact nodup_condFoldl_derase _ _ (hm.inn ch inner ho)
    · intro cid' info' h'
      rw [dlookup_filter _ _ _ hm.an] at h'
      cases hA : dlookup cid' m.active_connections with
      | none => rw [hA] at h'; exact absurd h' (by simp)
      | some v =>
        rw [hA, bind_some_eq] at h'
        split at h'
        · rw [← Option.some.inj h']
          show (dlookup v.endpointType (List.foldl _ m.endpoint_connections _)).isSome
          rw [dlookup_foldl_epErase]
          have hex := hm.coh.1 cid' v hA
          cases hE : dlookup v.endpointType m.endpoint_connections with
          | none => rw [hE] at hex; exact absurd hex (by simp)
          | some inner => simp
        · exact absurd h' (by simp)
    · intro cid' ch inner' h'
      rw [dlookup_foldl_epErase] at h'
      cases ho : dlookup ch m.endpoint_connections with
      | none => rw [ho] at h'; exact absurd h' (by simp)
      | some inner =>
        rw [ho] at h'
        simp only [Option.map_some'] at h'
        rw [← Option.some.inj h']
        rw [dlookup_condFoldl_derase]
        by_cases hmem : cid' ∈ (((m.active_connections.filter
            (fun p => p.2.websocket == ws)).filter
            (fun p => p.2.endpointType == ch)).map Prod.fst)
        · rw [if_pos hmem]
          constructor
          · intro hs; exact absurd hs (by simp)
          · rintro ⟨info'', hi, _⟩
            rw [dlookup_filter _ _ _ hm.an] at hi
            obtain ⟨p, hpf, hpfst⟩ := List.mem_map.mp hmem
            have hp1 : p ∈ m.active_connections.filter (fun q => q.2.websocket == ws) :=
              (List.filter_sublist _).mem hpf
            have hpw : (p.2.websocket == ws) = true := (List.mem_filter.mp hp1).2
            have hpA : p ∈ m.active_connections := (List.filter_sublist _).mem hp1
            have hlp : dlookup p.1 m.active_connections = some p.2 :=
              dlookup_of_mem_nodup hm.an hpA
            subst hpfst
            rw [hlp, bind_some_eq] at hi
            have hbne : (p.2.websocket != ws) = false := by
              simp [bne, hpw]
            rw [hbne] at hi
            simp at hi
        · rw [if_neg hmem]
          rw [hm.coh.2 cid' ch inner ho]
          constructor
          · rintro ⟨info'', hi, hty⟩
            refine ⟨info'', ?_, hty⟩
            rw [dlookup_filter _ _ _ hm.an, hi, bind_some_eq]
            by_cases hw : (info''.websocket != ws) = true
            · simp only [hw, if_true]
            · exfalso
              apply hmem
              have hwb : (info''.websocket == ws) = true := by
                simpa [bne] using hw
              have hpA : (cid', info'') ∈ m.active_connections := dlookup_mem hi
              have h1 : (cid', info'') ∈ m.active_connections.filter
                  (fun q => q.2.websocket == ws) := List.mem_filter.mpr ⟨hpA, hwb⟩
              have h2 : (cid', info'') ∈ (m.active_connections.filter
                  (fun q => q.2.websocket == ws)).filter
                  (fun q => q.2.endpointType == ch) :=
                List.mem_filter.mpr ⟨h1, by simp [hty]⟩
              exact List.mem_map_of_mem Prod.fst h2
          · rintro ⟨info'', hi, hty⟩
            rw [dlookup_filter _ _ _ hm.an] at hi
            cases hA : dlookup cid' m.active_connections with
            | none => rw [hA] at hi; exact absurd hi (by simp)
            | some v =>
              rw [hA, bind_some_eq] at hi
              split at hi
              · exact ⟨v, rfl, by rw [Option.some.inj hi]; exact hty⟩
              · exact absurd hi (by simp)

theorem disconnect_none (m : ConnectionManager) (w : Option Nat) :
    m.disconnect w none = m.disconnectByWs w := rfl

theorem disconnect_some (m : ConnectionManager) (w : Option Nat) (cid : String) :
    m.disconnect w (some cid) =
      if cid = "" then m.disconnectByWs w
      else
        match dlookup cid m.active_connections with
        | some info =>
          { active_connections := derase cid m.active_connections,
            endpoint_connections := epErase info.endpointType cid m.endpoint_connections }
        | none => m.disconnectByWs w := rfl

/-- `disconnect` preserves the registry invariant in all its branches. -/
theorem Inv_disconnect {m : ConnectionManager} (hm : Inv m) (w : Option Nat)
    (cid? : Option String) : Inv (m.disconnect w cid?) := by
  cases cid? with
  | none => rw [disconnect_none]; exact Inv_disconnectByWs hm w
  | some cid =>
    rw [disconnect_some]
    by_cases hc : cid = ""
    · rw [if_pos hc]; exact Inv_disconnectByWs hm w
    · rw [if_neg hc]
      cases hA : dlookup cid m.active_connections with
      | none => exact Inv_disconnectByWs hm w
      | some info => exact Inv_removeOne hm hA

/-- Disconnecting only removes entries: every global-index lookup afterwards
is either unchanged or gone. -/
theorem disconnect_active_sub {m : ConnectionManager} (hm : Inv m) (w : Option Nat)
    (cid? : Option String) (c : String) :
    dlookup c (m.disconnect w cid?).active_connections = dlookup c m.active_connections ∨
    dlookup c (m.disconnect w cid?).active_connections = none := by
  have hws : ∀ w', dlookup c (m.disconnectByWs w').active_connections =
      dlookup c m.active_connections ∨
      dlookup c (m.disconnectByWs w').active_connections = none := by
    intro w'
    cases w' with
    | none => exact Or.inl rfl
    | some ws =>
      have heq : dlookup c (m.disconnectByWs (some ws)).active_connections =
          (dlookup c m.active_connections).bind
            (fun v => if ((c, v).2.websocket != ws) = true then some v else none) := by
        show dlookup c (m.active_connections.filter fun p => p.2.websocket != ws) = _
        rw [dlookup_filter _ _ _ hm.an]
      rw [heq]
      cases dlookup c m.active_connections with
      | none => exact Or.inr rfl
      | some v =>
        rw [bind_some_eq]
        by_cases hw : ((c, v).2.websocket != ws) = true
        · rw [if_pos hw]; exact Or.inl rfl
        · rw [if_neg hw]; exact Or.inr rfl
  cases cid? with
  | none => rw [disconnect_none]; exact hws w
  | some cid =>
    rw [disconnect_some]
    by_cases hc : cid = ""
    · rw [if_pos hc]; exact hws w
    · rw [if_neg hc]
      cases hA : dlookup cid m.active_connections with
      | none => exact hws w
      | some info =>
        show dlookup c (derase cid m.active_connections) = _ ∨
          dlookup c (derase cid m.active_connections) = none
        rw [dlookup_derase]
        by_cases hcc : cid = c
        · rw [if_pos hcc]; exact Or.inr rfl
        · rw [if_neg hcc]; exact Or.inl rfl

/-- One step of the broadcast prune loop: the pruned client is a member of
the broadcast channel's map, and by coherence that is its own channel, so
this is `Inv_removeOne` in disguise. -/
theorem Inv_pruneOne {m : ConnectionManager} (hm : Inv m) {ch cid : String}
    {inner : List (String × Nat)} (hch : dlookup ch m.endpoint_connections = some inner)
    (hin : (dlookup cid inner).isSome) :
    Inv { active_connections := derase cid m.active_connections,
          endpoint_connections := epErase ch cid m.endpoint_connections } := by
  obtain ⟨info, hA, hty⟩ := (hm.coh.2 cid ch inner hch).mp hin
  rw [← hty]
  exact Inv_removeOne hm hA

/-- The broadcast prune loop over a duplicate-free list of clients of the
target channel preserves the invariant. -/
theorem Inv_pruneFold (ch : String) :
    ∀ (D : List String) (m : ConnectionManager), Inv m → D.Nodup →
      (∀ cid ∈ D, ∃ inner, dlookup ch m.endpoint_connections = some inner ∧
        (dlookup cid inner).isSome) →
      Inv (D.foldl (fun acc cid =>
        { active_connections := derase cid acc.active_connections,
          endpoint_connections := epErase ch cid acc.endpoint_connections }) m) := by
  intro D
  induction D with
  | nil => intro m hm _ _; exact hm
  | cons c rest ih =>
    intro m hm hnd hD
    simp only [List.foldl_cons]
    obtain ⟨inner, hch, hin⟩ := hD c (List.mem_cons_self _ _)
    apply ih _ (Inv_pruneOne hm hch hin) (List.nodup_cons.mp hnd).2
    intro cid hcid
    refine ⟨derase c inner, ?_, ?_⟩
    · show dlookup ch (epErase ch c m.endpoint_connections) = some (derase c inner)
      rw [dlookup_epErase, if_pos rfl, hch]
      rfl
    · obtain ⟨inner', hch', hin'⟩ := hD cid (List.mem_cons_of_mem _ hcid)
      rw [hch] at hch'
      rw [← Option.some.inj hch'] at hin'
      rw [dlookup_derase]
      have hne : c ≠ cid := by
        intro he
        exact (List.nodup_cons.mp hnd).1 (he ▸ hcid)
      rw [if_neg hne]
      exact hin'

/-- Registering a connection whose client id is fresh, or live on the same
channel, preserves the invariant; this is the final step of `connect`
(mcp_server.py:245-257). -/
theorem Inv_register {m1 : ConnectionManager} (hm : Inv m1) (c ch : String) (ws : Nat)
    (s : String)
    (hc : dlookup c m1.active_connections = none ∨
      ∃ info, dlookup c m1.active_connections = some info ∧ info.endpointType = ch) :
    Inv { active_connections := dinsert c ⟨ws, ch, s⟩ m1.active_connections,
          endpoint_connections := epInsert ch c ws m1.endpoint_connections } := by
  refine ⟨nodup_dinsert _ _ hm.an, nodup_epInsert _ _ _ hm.en, ?_, ?_, ?_⟩
  · intro ch' inner' h'
    rw [dlookup_epInsert] at h'
    by_cases he : ch = ch'
    · rw [if_pos he] at h'
      rw [← Option.some.inj h']
      apply nodup_dinsert
      cases hE : dlookup ch m1.endpoint_connections with
      | none => simp [NodupKeys]
      | some inner =>
        simpa using hm.inn ch inner hE
    · rw [if_neg he] at h'
      exact hm.inn ch' inner' h'
  · intro cid' info' h'
    rw [dlookup_dinsert] at h'
    by_cases hcc : c = cid'
    · rw [if_pos hcc] at h'
      rw [← Option.some.inj h']
      show (dlookup ch (epInsert ch c ws m1.endpoint_connections)).isSome
      rw [dlookup_epInsert, if_pos rfl]
      rfl
    · rw [if_neg hcc] at h'
      exact isSome_epInsert_mono _ _ _ _ _ (hm.coh.1 cid' info' h')
  · intro cid' ch' inner' h'
    rw [dlookup_epInsert] at h'
    rw [dlookup_dinsert]
    by_cases he : ch = ch'
    · subst he
      rw [if_pos rfl] at h'
      rw [← Option.some.inj h']
      rw [dlookup_dinsert]
      by_cases hcc : c = cid'
      · rw [if_pos hcc, if_pos hcc]
        constructor
        · intro _; exact ⟨⟨ws, ch, s⟩, rfl, rfl⟩
        · intro _; simp
      · rw [if_neg hcc, if_neg hcc]
        cases hE : dlookup ch m1.endpoint_connections with
        | some inner0 =>
          simp only [hE, Option.getD_some]
          exact hm.coh.2 cid' ch inner0 hE
        | none =>
          simp only [hE, Option.getD_none]
          constructor
          · intro hs
            exact absurd hs (by simp [dlookup])
          · rintro ⟨info'', hi, hty⟩
            have hex := hm.coh.1 cid' info'' hi
            rw [hty, hE] at hex
            exact absurd hex (by simp)
    · rw [if_neg he] at h'
      by_cases hcc : c = cid'
      · subst hcc
        rw [if_pos rfl]
        constructor
        · intro hs
          obtain ⟨info₀, hA, hty⟩ := (hm.coh.2 c ch' inner' h').mp hs
          rcases hc with hc | ⟨info₁, hA₁, hty₁⟩
          · rw [hc] at hA
            exact absurd hA (by simp)
          · rw [hA₁] at hA
            rw [← Option.some.inj hA] at hty
            rw [hty₁] at hty
            exact absurd hty he
        · rintro ⟨info'', hi, hty⟩
          rw [← Option.some.inj hi] at hty
          exact absurd hty he
      · rw [if_neg hcc]
        exact hm.coh.2 cid' ch' inner' h'

theorem pruneStep_some (ch : String) (hch : ch ≠ "") :
    pruneStep (some ch) = fun acc cid =>
      { active_connections := derase cid acc.active_connections,
        endpoint_connections := epErase ch cid acc.endpoint_connections } := by
  funext acc cid
  unfold pruneStep
  simp [hch]

/-- The dedup loop of `connect` preserves the invariant and only removes
global-index entries. -/
theorem Inv_dedupFold :
    ∀ (dup : List (String × ConnInfo)) (m : ConnectionManager), Inv m →
      Inv (dup.foldl (fun acc p => acc.disconnect (some p.2.websocket) (some p.1)) m) ∧
      (∀ c, dlookup c (dup.foldl (fun acc p =>
          acc.disconnect (some p.2.websocket) (some p.1)) m).active_connections =
        dlookup c m.active_connections ∨
        dlookup c (dup.foldl (fun acc p =>
          acc.disconnect (some p.2.websocket) (some p.1)) m).active_connections = none) := by
  intro dup
  induction dup with
  | nil => intro m hm; exact ⟨hm, fun c => Or.inl rfl⟩
  | cons p rest ih =>
    intro m hm
    simp only [List.foldl_cons]
    have hm1 := Inv_disconnect hm (some p.2.websocket) (some p.1)
    obtain ⟨hInv, hsub⟩ := ih _ hm1
    refine ⟨hInv, fun c => ?_⟩
    rcases hsub c with h1 | h1
    · rcases disconnect_active_sub hm (some p.2.websocket) (some p.1) c with h2 | h2
      · exact Or.inl (h1.trans h2)
      · exact Or.inr (h1.trans h2)
    · exact Or.inr h1

/-- Every registry operation preserves the invariant under its side
condition. -/
theorem Inv_applyOp {m : ConnectionManager} (hm : Inv m) (op : RegistryOp)
    (hop : goodOp m op = true) : Inv (applyOp m op) := by
  cases op with
  | disconnectOp w cid? => exact Inv_disconnect hm w cid?
  | sendOp cid f =>
    show Inv (m.send_to_client cid f).1
    cases hA : dlookup cid m.active_connections with
    | none =>
      have he : m.send_to_client cid f = (m, false) := by
        unfold ConnectionManager.send_to_client
        rw [hA]
      rw [he]
      exact hm
    | some info =>
      by_cases hf : f info.websocket = true
      · have he : m.send_to_client cid f = (m.disconnect none (some cid), false) := by
          unfold ConnectionManager.send_to_client
          rw [hA]
          simp [hf]
        rw [he]
        exact Inv_disconnect hm none (some cid)
      · have he : m.send_to_client cid f = (m, true) := by
          unfold ConnectionManager.send_to_client
          rw [hA]
          simp [hf]
        rw [he]
        exact hm
  | broadcastOp ch? ex f =>
    show Inv (m.broadcast ch? ex f).1
    cases ch? with
    | none => simp [goodOp] at hop
    | some ch =>
      simp only [goodOp] at hop
      rw [Bool.and_eq_true] at hop
      obtain ⟨hch', hkey⟩ := hop
      have hch : ch ≠ "" := by simpa using hch'
      obtain ⟨mp, hmp⟩ : ∃ mp, dlookup ch m.endpoint_connections = some mp := by
        cases hE : dlookup ch m.endpoint_connections with
        | none => rw [hE] at hkey; simp at hkey
        | some mp => exact ⟨mp, rfl⟩
      unfold ConnectionManager.broadcast
      rw [broadcastTargets_of_lookup m ch mp hch hmp]
      by_cases hemp : mp.isEmpty
      · rw [if_pos hemp]; exact hm
      · rw [if_neg hemp]
        show Inv ((((mp.filter (fun p =>
            match ex with
            | some e => !(e != "" && p.1 == e)
            | none => true)).filter (fun p => f p.2)).map Prod.fst).foldl
          (pruneStep (some ch)) m)
        rw [pruneStep_some ch hch]
        apply Inv_pruneFold ch _ m hm
        · have hsub : List.Sublist (((mp.filter (fun p =>
              match ex with
              | some e => !(e != "" && p.1 == e)
              | none => true)).filter (fun p => f p.2)).map Prod.fst)
              (mp.map Prod.fst) :=
            ((List.filter_sublist _).trans (List.filter_sublist _)).map Prod.fst
          exact List.Nodup.sublist hsub (hm.inn ch mp hmp)
        · intro cid hcid
          refine ⟨mp, hmp, ?_⟩
          obtain ⟨p, hp, hfst⟩ := List.mem_map.mp hcid
          have hpm : p ∈ mp := (List.filter_sublist _).mem ((List.filter_sublist _).mem hp)
          rw [← hfst, dlookup_of_mem_nodup (hm.inn ch mp hmp) hpm]
          rfl
  | connectOp ws ch cid? host session =>
    show Inv (m.connect ws ch cid? host session).1
    simp only [ConnectionManager.connect]
    have hd := Inv_dedupFold (m.active_connections.filter (fun p =>
      p.1 != effectiveClientId cid? host session && p.2.endpointType == ch &&
      parsedSession p.1 == session)) m hm
    refine Inv_register hd.1 _ _ _ _ ?_
    simp only [goodOp] at hop
    rcases hd.2 (effectiveClientId cid? host session) with h1 | h1
    · rw [h1]
      cases hA : dlookup (effectiveClientId cid? host session) m.active_connections with
      | none => exact Or.inl rfl
      | some info =>
        right
        refine ⟨info, rfl, ?_⟩
        rw [hA] at hop
        simpa using hop
    · exact Or.inl h1

theorem Inv_init : Inv ConnectionManager.init := by
  refine ⟨?_, ?_, ?_, ?_, ?_⟩
  · simp [NodupKeys, ConnectionManager.init]
  · unfold NodupKeys
    decide
  · intro ch inner h
    simp only [ConnectionManager.init, dlookup] at h
    repeat' split at h
    all_goals simp_all [NodupKeys]
  · intro cid info h
    simp [ConnectionManager.init, dlookup] at h
  · intro cid ch inner h
    simp only [ConnectionManager.init, dlookup] at h
    repeat' split at h
    all_goals simp_all [dlookup]

theorem Inv_foldl :
    ∀ (ops : List RegistryOp) (m : ConnectionManager), Inv m →
      goodTrace m ops = true → Inv (ops.foldl applyOp m) := by
  intro ops
  induction ops with
  | nil => intro m hm _; exact hm
  | cons op rest ih =>
    intro m hm ht
    have ht' : (goodOp m op && goodTrace (applyOp m op) rest) = true := ht
    rw [Bool.and_eq_true] at ht'
    simp only [List.foldl_cons]
    exact ih _ (Inv_applyOp hm op ht'.1) ht'.2

/-- Claim C9 (counterexample): a broadcast without a channel prunes a failed
client only from the global index (mcp_server.py:332-336 guards the
channel-map deletion on `endpoint_type`), leaving its channel-map entry
behind: one connect followed by an all-channel broadcast whose send fails
yields a state where `h_s` is a key of the command channel map but not of
`active_connections`. -/
theorem registry_consistency_counterexample :
    ¬ consistent ((ConnectionManager.init.connect 5 "command" none "h" "s").1.broadcast
        none none (fun _ => true)).1 := by
  intro hcon
  have h1 : dlookup "command" ((ConnectionManager.init.connect 5 "command" none "h"
      "s").1.broadcast none none (fun _ => true)).1.endpoint_connections =
      some [("h_s", 5)] := by decide
  have h2 : (dlookup "h_s" [("h_s", 5)]).isSome := by decide
  obtain ⟨info, hinfo, _⟩ := (hcon.2 "h_s" "command" _ h1).mp h2
  have h3 : dlookup "h_s" ((ConnectionManager.init.connect 5 "command" none "h"
      "s").1.broadcast none none (fun _ => true)).1.active_connections = none := by decide
  rw [h3] at hinfo
  exact Option.noConfusion hinfo

/-- Claim C9 (amended): the two indices stay mutually consistent — a client
id is a key of the global map exactly when it is a key of its own channel's
map and of no other — under every sequence of registry operations in which
each broadcast names a truthy, existing channel and no connect re-registers
a live client id under a different channel.  (The excluded cases are real:
the counterexample shows an all-channel broadcast breaking the invariant.) -/
theorem registry_consistency_amended (ops : List RegistryOp)
    (h : goodTrace ConnectionManager.init ops = true) :
    consistent (ops.foldl applyOp ConnectionManager.init) :=
  (Inv_foldl ops ConnectionManager.init Inv_init h).coh

/-- Witness for the amended C9 theorem on a four-operation trace: connect,
channel-targeted broadcast with a failing send, unicast to the pruned
client, disconnect. -/
theorem registry_consistency_amended_witness :
    goodTrace ConnectionManager.init
      [RegistryOp.connectOp 5 "command" none "h" "s",
       RegistryOp.broadcastOp (some "command") none (fun _ => true),
       RegistryOp.sendOp "h_s" (fun _ => true),
       RegistryOp.disconnectOp none (some "h_s")] = true ∧
    consistent ([RegistryOp.connectOp 5 "command" none "h" "s",
       RegistryOp.broadcastOp (some "command") none (fun _ => true),
       RegistryOp.sendOp "h_s" (fun _ => true),
       RegistryOp.disconnectOp none (some "h_s")].foldl applyOp
      ConnectionManager.init) :=
  ⟨by decide, registry_consistency_amended _ (by decide)⟩

end DTB
